import Mathlib

/-!
# Secure File Vault: codec, envelope and storage model

A shallow embedding of

* `client/src/utils/crypto.js` (hex and base64 helpers),
* `client/src/components/EncryptForm.jsx` and `DecryptForm.jsx`
  (the encrypt and decrypt flows),
* `server/index.js` (the `/upload` and `/file/:id` handlers),

followed by the properties established about them.

Conventions.  A JavaScript string is the list of its UTF-16 code units; the
contents of an `ArrayBuffer` or `Uint8Array` is a list of numbers, each below
256 (`IsBytes`).  A store into a `Uint8Array` converts with `toUint8`.
Status texts and error messages, which are only displayed, are Lean strings.
The file system of the server is a map from resolved paths to what exists
there; `path.join` is resolved component by component and a write can fail.
-/

namespace Vault

/-- A JavaScript string: its UTF-16 code units. -/
abbrev JSString := List Nat

/-- The contents of an `ArrayBuffer` / `Uint8Array`. -/
abbrev Bytes := List Nat

/-- Every element is a byte value. -/
def IsBytes (b : Bytes) : Prop := ∀ x ∈ b, x < 256

instance (b : Bytes) : Decidable (IsBytes b) := by
  unfold IsBytes; infer_instance

/-- Code units of a source literal (all its characters are in the basic plane). -/
def lit (s : String) : JSString := s.toList.map Char.toNat

/-! ## ECMAScript built-ins used by `crypto.js` -/

/-- ECMAScript `WhiteSpace` and `LineTerminator` code units: the class `\s` of a
regular expression, and what `trim` and `parseInt` skip. -/
def isJsWhiteSpace (c : Nat) : Bool :=
  c == 9 || c == 10 || c == 11 || c == 12 || c == 13 || c == 32 || c == 0xA0 ||
  c == 0x1680 || (0x2000 ≤ c && c ≤ 0x200A) || c == 0x2028 || c == 0x2029 ||
  c == 0x202F || c == 0x205F || c == 0x3000 || c == 0xFEFF

/-- `String.prototype.trim`. -/
def jsTrim (s : JSString) : JSString :=
  ((s.dropWhile isJsWhiteSpace).reverse.dropWhile isJsWhiteSpace).reverse

/-- `s.substr(start, len)`. -/
def substr (s : JSString) (start len : Nat) : JSString := (s.drop start).take len

/-- Value of a code unit as a digit in radix 16, if it is one. -/
def hexDigitValue (c : Nat) : Option Nat :=
  if 48 ≤ c ∧ c ≤ 57 then some (c - 48)
  else if 97 ≤ c ∧ c ≤ 102 then some (c - 87)
  else if 65 ≤ c ∧ c ≤ 70 then some (c - 55)
  else none

/-- The longest run of radix-16 digits at the head of `s`, as digit values. -/
def leadingHexDigits : JSString → List Nat
  | [] => []
  | c :: rest =>
    match hexDigitValue c with
    | some d => d :: leadingHexDigits rest
    | none => []

/-- `parseInt(s, 16)`; `none` is `NaN`.  Leading white space is skipped, one sign
is read, one `0x` / `0X` is dropped, then the longest run of hex digits is read;
no digit at all gives `NaN`. -/
def parseInt16 (s : JSString) : Option Int :=
  let s := s.dropWhile isJsWhiteSpace
  let negative := s.head? == some 45
  let s := if s.head? == some 45 || s.head? == some 43 then s.drop 1 else s
  let s := match s with
    | 48 :: 120 :: rest => rest
    | 48 :: 88 :: rest => rest
    | other => other
  match leadingHexDigits s with
  | [] => none
  | ds =>
    let n : Int := (ds.foldl (fun acc d => acc * 16 + d) 0 : Nat)
    some (if negative then -n else n)

/-- The conversion applied when a number is stored into a `Uint8Array`:
`NaN` becomes 0, an integer is reduced modulo 256. -/
def toUint8 : Option Int → Nat
  | none => 0
  | some n => (n % 256).toNat

/-- Lowercase digit of `n.toString(16)`. -/
def hexDigitChar (d : Nat) : Nat := if d < 10 then 48 + d else 87 + d

/-- `n.toString(16)` for a non-negative integer. -/
def toString16 (n : Nat) : JSString :=
  (Nat.toDigits 16 n).map Char.toNat

/-- `s.padStart(2, '0')`. -/
def padStart2 (s : JSString) : JSString :=
  List.replicate (2 - s.length) 48 ++ s

/-! ## `crypto.js`: conversion helpers -/

/-- `hexToArrayBuffer(hex)`.

An empty string returns an empty buffer.  Otherwise white space is removed,
`len = clean.length / 2` (a JavaScript number, possibly a half), the array
`new Uint8Array(len)` has `⌊len⌋` zeroed elements, and the loop runs for every
`i < len`, that is for `2 * i < clean.length`, storing
`parseInt(clean.substr(i * 2, 2), 16)`; a store past the end of a typed array is
ignored, as is one by `List.set`. -/
def hexToArrayBuffer (hex : JSString) : Bytes :=
  if hex.isEmpty then []
  else
    let clean := hex.filter (fun c => !isJsWhiteSpace c)
    let u8 : Bytes := List.replicate (clean.length / 2) 0
    (List.range ((clean.length + 1) / 2)).foldl
      (fun u8 i => u8.set i (toUint8 (parseInt16 (substr clean (i * 2) 2)))) u8

/-- The values that reach the `buffer` parameters of the helpers. -/
inductive BufferArg where
  | arrayBuffer (bytes : Bytes)
  | uint8Array (bytes : Bytes)
  | undefined
  deriving DecidableEq, Repr

/-- `new Uint8Array(x)`: a view of an `ArrayBuffer`, a copy of a typed array, and
for `undefined` an array of length `ToIndex(undefined) = 0`. -/
def newUint8Array : BufferArg → Bytes
  | .arrayBuffer bytes => bytes
  | .uint8Array bytes => bytes
  | .undefined => []

/-- The property read `x.buffer`: the buffer of a typed array (here always a view
of its whole buffer); an `ArrayBuffer` has no such property, so the read gives
`undefined`; reading a property of `undefined` is a `TypeError`. -/
def BufferArg.buffer : BufferArg → Except String BufferArg
  | .uint8Array bytes => .ok (.arrayBuffer bytes)
  | .arrayBuffer _ => .ok .undefined
  | .undefined => .error "Cannot read properties of undefined (reading 'buffer')"

/-- `arrayBufferToHex(buffer)`. -/
def arrayBufferToHex (buffer : BufferArg) : JSString :=
  let bytes := newUint8Array buffer
  (bytes.map (fun b => padStart2 (toString16 b))).flatten

/-! ## Platform base64 (`btoa`, `atob`) -/

/-- The base64 alphabet of RFC 4648, section 4. -/
def base64Alphabet : List Nat :=
  lit "ABCDEFGHIJKLMNOPQRSTUVWXYZabcdefghijklmnopqrstuvwxyz0123456789+/"

/-- Code unit of the base64 digit with value `s`. -/
def base64Char (s : Nat) : Nat := base64Alphabet.getD s 0

/-- Value of a base64 digit, if the code unit is one. -/
def base64Index (c : Nat) : Option Nat :=
  if 65 ≤ c ∧ c ≤ 90 then some (c - 65)
  else if 97 ≤ c ∧ c ≤ 122 then some (c - 71)
  else if 48 ≤ c ∧ c ≤ 57 then some (c + 4)
  else if c = 43 then some 62
  else if c = 47 then some 63
  else none

/-- The six-bit groups of a byte sequence, the last group zero-filled. -/
def sextets : Bytes → List Nat
  | [] => []
  | [a] => [a / 4, a % 4 * 16]
  | [a, b] => [a / 4, a % 4 * 16 + b / 16, b % 16 * 4]
  | a :: b :: c :: rest =>
    (a / 4) :: (a % 4 * 16 + b / 16) :: (b % 16 * 4 + c / 64) :: (c % 64) :: sextets rest

/-- Padded base64 with the standard alphabet (RFC 4648, section 4). -/
def base64Encode (b : Bytes) : JSString :=
  (sextets b).map base64Char ++ List.replicate ((3 - b.length % 3) % 3) 61

/-- Modelled from the spec: the browser built-in `btoa`, which is not part of the
repository; "standard alphabet, padded" base64 of the string read as one byte per
code unit.  A code unit above 255 raises `InvalidCharacterError` (`none`). -/
def btoa (binary : JSString) : Option JSString :=
  if binary.all (fun c => c ≤ 255) then some (base64Encode binary) else none

/-- ASCII white space, which `atob` removes before decoding. -/
def isAsciiWhiteSpace (c : Nat) : Bool :=
  c == 9 || c == 10 || c == 12 || c == 13 || c == 32

/-- Removal of one or two `=` at the end. -/
def dropPadding (d : JSString) : JSString :=
  if d.getLast? = some 61 then
    if d.dropLast.getLast? = some 61 then d.dropLast.dropLast else d.dropLast
  else d

/-- Bytes of a sequence of six-bit groups; a last group of two or three digits
gives one or two bytes, the bits left over are dropped. -/
def unsextets : List Nat → Bytes
  | s1 :: s2 :: s3 :: s4 :: rest =>
    (s1 * 4 + s2 / 16) :: (s2 % 16 * 16 + s3 / 4) :: (s3 % 4 * 64 + s4) :: unsextets rest
  | [s1, s2, s3] => [s1 * 4 + s2 / 16, s2 % 16 * 16 + s3 / 4]
  | [s1, s2] => [s1 * 4 + s2 / 16]
  | _ => []

/-- Modelled from the spec: the browser built-in `atob`, which is not part of the
repository; the inverse of padded standard-alphabet base64 as browsers implement
it: ASCII white space is removed, padding is removed when the length is a
multiple of four, a length of 1 modulo 4 or a code unit outside the alphabet
raises `InvalidCharacterError` (`none`); the result has one code unit per byte. -/
def atob (data : JSString) : Option JSString :=
  let data := data.filter (fun c => !isAsciiWhiteSpace c)
  let data := if data.length % 4 = 0 then dropPadding data else data
  if data.length % 4 = 1 then none
  else if data.all (fun c => (base64Index c).isSome) then
    some (unsextets (data.map (fun c => (base64Index c).getD 0)))
  else none

/-- `arrayBufferToBase64(arrayBuffer)`: the loop appends
`String.fromCharCode(bytes[i])`, the code unit `bytes[i]`, then `btoa`. -/
def arrayBufferToBase64 (arrayBuffer : BufferArg) : Option JSString :=
  let bytes := newUint8Array arrayBuffer
  let binary : JSString := bytes.foldl (fun binary b => binary ++ [b % 65536]) []
  btoa binary

/-- `base64ToArrayBuffer(base64)`: `atob`, then each `charCodeAt(i)` is stored
into a `Uint8Array`. -/
def base64ToArrayBuffer (base64 : JSString) : Option Bytes :=
  match atob base64 with
  | none => none
  | some binary =>
    let bytes : Bytes := List.replicate binary.length 0
    some ((List.range binary.length).foldl
      (fun bytes i => bytes.set i (toUint8 (some (binary.getD i 0 : Nat)))) bytes)

/-! ## JSON values -/

/-- A value produced by `JSON.parse`.  The program never computes with a
number; it only tests values for truthiness, so numbers are integers here. -/
inductive Json where
  | null
  | bool (b : Bool)
  | num (n : Int)
  | str (s : JSString)
  | arr (items : List Json)
  | obj (fields : List (JSString × Json))

/-- JavaScript truthiness (`if (v)`, `!v`, `v || w`). -/
def Json.truthy : Json → Bool
  | .null => false
  | .bool b => b
  | .num n => n != 0
  | .str s => !s.isEmpty
  | .arr _ => true
  | .obj _ => true

/-- Truthiness of a possibly `undefined` value. -/
def truthy : Option Json → Bool
  | none => false
  | some v => v.truthy

/-- The property read `v.key` for one of the plain data keys the program uses;
`none` is `undefined`.  Arrays, strings, numbers and booleans have no such
property; reading a property of `null` is a `TypeError`. -/
def Json.getProp (v : Json) (key : JSString) : Except String (Option Json) :=
  match v with
  | .obj fields => .ok (fields.lookup key)
  | .null => .error "Cannot read properties of null"
  | _ => .ok none

deriving instance DecidableEq for Except

/-- An `Option` as a computation that throws `msg` on `none`. -/
def orThrow {α : Type} (msg : String) : Option α → Except String α
  | some a => .ok a
  | none => .error msg

/-! ## WebCrypto primitives -/

/-- The `crypto.subtle` operations the program calls, with the parameters it
fixes (SHA-256; AES-GCM with a 256-bit key and no additional data; RSA-OAEP with
SHA-256; `spki` / `pkcs8` / `raw` key formats).  A rejected promise is an
`Except.error` carrying the message of the exception. -/
structure WebCrypto (PublicKey PrivateKey AesKey : Type) where
  digestSHA256 : Bytes → Bytes
  exportRaw : AesKey → Bytes
  importRaw : Bytes → Except String AesKey
  aesGcmEncrypt : AesKey → Bytes → Bytes → Except String Bytes
  aesGcmDecrypt : AesKey → Bytes → Bytes → Except String Bytes
  importSpki : Bytes → Except String PublicKey
  importPkcs8 : Bytes → Except String PrivateKey
  rsaOaepEncrypt : PublicKey → Bytes → Except String Bytes
  rsaOaepDecrypt : PrivateKey → Bytes → Except String Bytes

section CryptoJs

variable {PublicKey PrivateKey AesKey : Type} (wc : WebCrypto PublicKey PrivateKey AesKey)

/-- `exportAESRaw(key)`. -/
def exportAESRaw (key : AesKey) : Bytes := wc.exportRaw key

/-- `importAESRaw(raw)`. -/
def importAESRaw (raw : Bytes) : Except String AesKey := wc.importRaw raw

/-- `aesGcmEncrypt(aesKey, dataArrayBuffer)`; `iv` is the result of
`crypto.getRandomValues(new Uint8Array(12))`.  Returns `{ ciphertext, iv }`, the
ciphertext an `ArrayBuffer` and the nonce a `Uint8Array`. -/
def aesGcmEncrypt (iv : Bytes) (aesKey : AesKey) (dataArrayBuffer : Bytes) :
    Except String (Bytes × Bytes) :=
  match wc.aesGcmEncrypt aesKey iv dataArrayBuffer with
  | .ok ciphertext => .ok (ciphertext, iv)
  | .error e => .error e

/-- `aesGcmDecrypt(aesKey, ivUint8, ciphertextArrayBuffer)`. -/
def aesGcmDecrypt (aesKey : AesKey) (ivUint8 : Bytes) (ciphertextArrayBuffer : Bytes) :
    Except String Bytes :=
  wc.aesGcmDecrypt aesKey ivUint8 ciphertextArrayBuffer

/-- `importRSAPublicKeyBase64(pubBase64)`. -/
def importRSAPublicKeyBase64 (pubBase64 : JSString) : Except String PublicKey :=
  match base64ToArrayBuffer pubBase64 with
  | none => .error "InvalidCharacterError"
  | some spki => wc.importSpki spki

/-- `importRSAPrivateKeyBase64(privBase64)`. -/
def importRSAPrivateKeyBase64 (privBase64 : JSString) : Except String PrivateKey :=
  match base64ToArrayBuffer privBase64 with
  | none => .error "InvalidCharacterError"
  | some pkcs8 => wc.importPkcs8 pkcs8

/-- `rsaEncrypt(publicKey, rawAESArrayBuffer)`. -/
def rsaEncrypt (publicKey : PublicKey) (rawAESArrayBuffer : Bytes) : Except String Bytes :=
  wc.rsaOaepEncrypt publicKey rawAESArrayBuffer

/-- `rsaDecrypt(privateKey, encrypted)`. -/
def rsaDecrypt (privateKey : PrivateKey) (encrypted : Bytes) : Except String Bytes :=
  wc.rsaOaepDecrypt privateKey encrypted

/-- `sha256(arrayBuffer)`; the result is an `ArrayBuffer`. -/
def sha256 (arrayBuffer : Bytes) : Bytes := wc.digestSHA256 arrayBuffer

end CryptoJs

/-! ## `EncryptForm.jsx`: the encrypt flow -/

/-- `target.set(source, offset)` on typed arrays; a source that does not fit is a
`RangeError`. -/
def typedArraySet (target source : Bytes) (offset : Nat) : Except String Bytes :=
  if offset + source.length ≤ target.length then
    .ok (target.take offset ++ source ++ target.drop (offset + source.length))
  else .error "offset is out of bounds"

/-- The object literal `metadata` of `handleEncryptAndUpload`. -/
structure UploadMetadata where
  filename : JSString
  originalFilename : JSString
  encryptedAESKeyHex : JSString
  ivHex : JSString
  fileHashHex : JSString
  deriving DecidableEq, Repr

/-- What `handleEncryptAndUpload` appends to the form: the blob, its name and
the metadata. -/
structure EncryptedUpload where
  blob : Bytes
  blobName : JSString
  metadata : UploadMetadata
  deriving DecidableEq, Repr

/-- Lines 46 to 115 of `handleEncryptAndUpload`: from the bytes of the selected
file to the form data.  `aesKey` is the key `generateAESKey()` returned and `iv`
the nonce drawn inside `aesGcmEncrypt`. -/
def encryptFlow {PublicKey PrivateKey AesKey : Type} (wc : WebCrypto PublicKey PrivateKey AesKey)
    (publicKeyHex fileName : JSString) (fileContent : Bytes) (aesKey : AesKey) (iv : Bytes) :
    Except String EncryptedUpload := do
  let arrayBuffer := BufferArg.arrayBuffer fileContent
  -- 1) digest
  let digest := BufferArg.arrayBuffer (sha256 wc fileContent)
  -- 2) payload = file bytes || digest
  let fileBytes := newUint8Array arrayBuffer
  let digestBytes := newUint8Array digest
  let payload : Bytes := List.replicate (fileBytes.length + digestBytes.length) 0
  let payload ← typedArraySet payload fileBytes 0
  let payload ← typedArraySet payload digestBytes fileBytes.length
  -- 3) the generated key, exported
  let aesRaw := exportAESRaw wc aesKey
  -- 4) AES-GCM
  let (ciphertext, iv) ← aesGcmEncrypt wc iv aesKey payload
  let ciphertext := BufferArg.arrayBuffer ciphertext
  let iv := BufferArg.uint8Array iv
  -- 5) public key
  let pub ← importRSAPublicKeyBase64 wc publicKeyHex
  -- 6) wrap
  let encryptedAES ← rsaEncrypt wc pub aesRaw
  -- 7) upload fields
  let ciphertextBase64 ← orThrow "InvalidCharacterError" (arrayBufferToBase64 ciphertext)
  let encryptedAESHex := arrayBufferToHex (.arrayBuffer encryptedAES)
  let ivHex := arrayBufferToHex (← iv.buffer)
  let fileHashHex := arrayBufferToHex (← digest.buffer)
  let binary ← orThrow "InvalidCharacterError" (atob ciphertextBase64)
  let u8 : Bytes := (List.range binary.length).foldl
    (fun u8 i => u8.set i (toUint8 (some (binary.getD i 0 : Nat))))
    (List.replicate binary.length 0)
  return {
    blob := u8
    blobName := fileName ++ lit ".enc"
    metadata := {
      filename := fileName ++ lit ".enc"
      originalFilename := fileName
      encryptedAESKeyHex := encryptedAESHex
      ivHex := ivHex
      fileHashHex := fileHashHex } }

/-! ## `DecryptForm.jsx`: the decrypt flow -/

/-- `hexToArrayBuffer(hex)` on a value read from the metadata: a falsy value
returns an empty buffer, a string is decoded, and any other truthy value fails
at `hex.replace`. -/
def hexToArrayBufferOf (hex : Option Json) : Except String Bytes :=
  if !truthy hex then .ok []
  else match hex with
    | some (.str s) => .ok (hexToArrayBuffer s)
    | _ => .error "hex.replace is not a function"

/-- `computedDigest.every((b, i) => b === digestBytes[i])`. -/
def everyMatches (computedDigest digestBytes : Bytes) : Bool :=
  (List.range computedDigest.length).all
    (fun i => digestBytes[i]? == some (computedDigest.getD i 0))

/-- Lines 45 to 49 of `handleFetchAndDecrypt`: the AES key and the nonce. -/
def unwrapKey {PublicKey PrivateKey AesKey : Type} (wc : WebCrypto PublicKey PrivateKey AesKey)
    (privateKey : PrivateKey) (encryptedAESKeyHex ivHex : Option Json) :
    Except String (AesKey × Bytes) := do
  let encryptedAESBuffer ← hexToArrayBufferOf encryptedAESKeyHex
  let aesKeyRaw ← rsaDecrypt wc privateKey encryptedAESBuffer
  let aesKey ← importAESRaw wc aesKeyRaw
  let iv := newUint8Array (.arrayBuffer (← hexToArrayBufferOf ivHex))
  return (aesKey, iv)

/-- Lines 54 to 62 of `handleFetchAndDecrypt`: the check of the decrypted payload
`decU8`, returning `originalBytes`. -/
def verifyPayload (digestSHA256 : Bytes → Bytes) (decU8 : Bytes) : Except String Bytes :=
  if decU8.length < 32 then .error "Decrypted payload too small"
  else
    let originalBytes := decU8.take (decU8.length - 32)
    let digestBytes := decU8.drop (decU8.length - 32)
    let computedDigest := digestSHA256 originalBytes
    let valid := everyMatches computedDigest digestBytes
    if !valid then .error "Hash verification failed — file integrity compromised!"
    else .ok originalBytes

/-- Lines 52 to 62: AES-GCM decryption followed by the check. -/
def decryptPayload {PublicKey PrivateKey AesKey : Type}
    (wc : WebCrypto PublicKey PrivateKey AesKey)
    (aesKey : AesKey) (iv : Bytes) (ciphertextBuffer : Bytes) : Except String Bytes := do
  let decryptedBuffer ← aesGcmDecrypt wc aesKey iv ciphertextBuffer
  let decU8 := newUint8Array (.arrayBuffer decryptedBuffer)
  verifyPayload wc.digestSHA256 decU8

/-- Lines 41 to 67 of `handleFetchAndDecrypt` without the status updates: from
the private key text, the two metadata fields and the ciphertext to the bytes
offered for download. -/
def decryptFlow {PublicKey PrivateKey AesKey : Type} (wc : WebCrypto PublicKey PrivateKey AesKey)
    (privateKeyBase64 : JSString) (encryptedAESKeyHex ivHex : Option Json)
    (ciphertextBuffer : Bytes) : Except String Bytes := do
  let privateKey ← importRSAPrivateKeyBase64 wc (jsTrim privateKeyBase64)
  let (aesKey, iv) ← unwrapKey wc privateKey encryptedAESKeyHex ivHex
  decryptPayload wc aesKey iv ciphertextBuffer

/-- The response of `fetch` as the handler reads it. -/
structure FetchResponse where
  /-- The flag `resp.ok`. -/
  ok : Bool
  /-- The message thrown for a response that is not ok, when it is not the
  default one: the truthy `j.error` of the JSON body. -/
  errorText : Option String
  /-- The result of `resp.headers.get('x-metadata')`; `none` is `null`. -/
  xMetadata : Option JSString
  /-- The bytes of `resp.blob()`; reading the body may reject. -/
  body : Except String Bytes

/-- What the handler gets from outside the component. -/
structure DecryptEnv (PublicKey PrivateKey AesKey : Type) where
  wc : WebCrypto PublicKey PrivateKey AesKey
  /-- The call `fetch(url)`; a network failure rejects. -/
  fetch : JSString → Except String FetchResponse
  /-- The built-in `JSON.parse`. -/
  jsonParse : JSString → Except String Json

/-- The object passed to `setDownloadUrl`: the bytes behind the object URL and
the `filename`. -/
structure DownloadLink where
  content : Bytes
  filename : Json

/-- State of `DecryptForm`. -/
structure DecryptForm where
  privateKeyBase64 : JSString
  fileId : JSString
  status : String
  downloadUrl : Option DownloadLink

/-- What lines 22 to 39 hand to the rest of the flow. -/
structure Fetched where
  encryptedAESKeyHex : Option Json
  ivHex : Option Json
  originalFilename : Option Json
  ciphertextBuffer : Bytes

/-- Lines 22 to 39 of `handleFetchAndDecrypt`: input checks, the request and the
metadata header. -/
def fetchFile {PublicKey PrivateKey AesKey : Type} (env : DecryptEnv PublicKey PrivateKey AesKey)
    (privateKeyBase64 fileId : JSString) : Except String Fetched := do
  if privateKeyBase64.isEmpty then throw "Provide private key (Base64 PKCS8)"
  if fileId.isEmpty then throw "Provide file ID"
  let resp ← env.fetch (lit "http://localhost:4000/file/" ++ fileId)
  if !resp.ok then throw (resp.errorText.getD "Fetch failed")
  let metaB64 ← match resp.xMetadata with
    | none => throw "Missing metadata header"
    | some h => if h.isEmpty then throw "Missing metadata header" else pure h
  let text ← orThrow "InvalidCharacterError" (atob metaB64)
  let metaJson ← env.jsonParse text
  let encryptedAESKeyHex ← metaJson.getProp (lit "encryptedAESKeyHex")
  let ivHex ← metaJson.getProp (lit "ivHex")
  let originalFilename ← metaJson.getProp (lit "originalFilename")
  if !truthy encryptedAESKeyHex || !truthy ivHex then throw "Incomplete metadata"
  let ciphertextBuffer ← resp.body
  return {
    encryptedAESKeyHex := encryptedAESKeyHex
    ivHex := ivHex
    originalFilename := originalFilename
    ciphertextBuffer := ciphertextBuffer }

/-- The `try` block of `handleFetchAndDecrypt`: the state it leaves and whether
it completed or threw. -/
def tryFetchAndDecrypt {PublicKey PrivateKey AesKey : Type}
    (env : DecryptEnv PublicKey PrivateKey AesKey) (s : DecryptForm) :
    DecryptForm × Except String Unit :=
  match fetchFile env s.privateKeyBase64 s.fileId with
  | .error e => (s, .error e)
  | .ok fetched =>
    let s := { s with status := "Importing private RSA key..." }
    match importRSAPrivateKeyBase64 env.wc (jsTrim s.privateKeyBase64) with
    | .error e => (s, .error e)
    | .ok privateKey =>
      let s := { s with status := "Decrypting AES key with RSA private key..." }
      match unwrapKey env.wc privateKey fetched.encryptedAESKeyHex fetched.ivHex with
      | .error e => (s, .error e)
      | .ok (aesKey, iv) =>
        let s := { s with status := "Decrypting file with AES-GCM..." }
        match decryptPayload env.wc aesKey iv fetched.ciphertextBuffer with
        | .error e => (s, .error e)
        | .ok originalBytes =>
          let s := { s with status := "Success: integrity verified. Preparing download..." }
          let filename :=
            if truthy fetched.originalFilename then fetched.originalFilename.getD .null
            else Json.str (lit "decrypted.file")
          let s := { s with downloadUrl := some { content := originalBytes, filename := filename } }
          let s := { s with status := "Decryption done — click download link." }
          (s, .ok ())

/-- `handleFetchAndDecrypt(e)` as a transition of the form state. -/
def handleFetchAndDecrypt {PublicKey PrivateKey AesKey : Type}
    (env : DecryptEnv PublicKey PrivateKey AesKey) (s : DecryptForm) : DecryptForm :=
  let s := { s with status := "Fetching file from server..." }
  let s := { s with downloadUrl := none }
  match tryFetchAndDecrypt env s with
  | (s, .ok ()) => s
  | (s, .error message) => { s with status := "Error: " ++ message }

/-- Every step of `handleFetchAndDecrypt` succeeds, listed in the order of the
source, and leaves the bytes `content` to be offered under the name `filename`. -/
def EveryStepSucceeds {PublicKey PrivateKey AesKey : Type}
    (env : DecryptEnv PublicKey PrivateKey AesKey) (s : DecryptForm)
    (content : Bytes) (filename : Json) : Prop :=
  ∃ (resp : FetchResponse) (metaB64 text : JSString) (metaJson : Json)
    (encryptedAESKeyHex ivHex originalFilename : Option Json) (ciphertextBuffer : Bytes)
    (privateKey : PrivateKey) (encryptedAESBuffer aesKeyRaw : Bytes) (aesKey : AesKey)
    (iv decU8 : Bytes),
    s.privateKeyBase64 ≠ [] ∧
    s.fileId ≠ [] ∧
    env.fetch (lit "http://localhost:4000/file/" ++ s.fileId) = .ok resp ∧
    resp.ok = true ∧
    resp.xMetadata = some metaB64 ∧ metaB64 ≠ [] ∧
    atob metaB64 = some text ∧
    env.jsonParse text = .ok metaJson ∧
    metaJson.getProp (lit "encryptedAESKeyHex") = .ok encryptedAESKeyHex ∧
    metaJson.getProp (lit "ivHex") = .ok ivHex ∧
    metaJson.getProp (lit "originalFilename") = .ok originalFilename ∧
    truthy encryptedAESKeyHex = true ∧ truthy ivHex = true ∧
    resp.body = .ok ciphertextBuffer ∧
    importRSAPrivateKeyBase64 env.wc (jsTrim s.privateKeyBase64) = .ok privateKey ∧
    hexToArrayBufferOf encryptedAESKeyHex = .ok encryptedAESBuffer ∧
    env.wc.rsaOaepDecrypt privateKey encryptedAESBuffer = .ok aesKeyRaw ∧
    env.wc.importRaw aesKeyRaw = .ok aesKey ∧
    hexToArrayBufferOf ivHex = .ok iv ∧
    env.wc.aesGcmDecrypt aesKey iv ciphertextBuffer = .ok decU8 ∧
    32 ≤ decU8.length ∧
    everyMatches (env.wc.digestSHA256 (decU8.take (decU8.length - 32)))
      (decU8.drop (decU8.length - 32)) = true ∧
    content = decU8.take (decU8.length - 32) ∧
    filename = (if truthy originalFilename then originalFilename.getD .null
      else Json.str (lit "decrypted.file"))

/-! ## A small instance of the primitives

Used to run the flows on concrete inputs: keys are byte strings handed through
unchanged, both ciphers reverse their input, and the digest is 32 copies of the
length of its input modulo 256. -/

/-- The instance. -/
def demoCrypto : WebCrypto Unit Unit Bytes where
  digestSHA256 := fun x => List.replicate 32 (x.length % 256)
  exportRaw := fun k => k
  importRaw := fun raw => .ok raw
  aesGcmEncrypt := fun _ _ p => .ok p.reverse
  aesGcmDecrypt := fun _ _ c => .ok c.reverse
  importSpki := fun _ => .ok ()
  importPkcs8 := fun _ => .ok ()
  rsaOaepEncrypt := fun _ m => .ok m.reverse
  rsaOaepDecrypt := fun _ w => .ok w.reverse

/-- A 12-byte nonce for the examples. -/
def demoIv : Bytes := [1, 2, 3, 4, 5, 6, 7, 8, 9, 10, 11, 12]

/-- A key for the examples. -/
def demoKey : Bytes := [200, 0, 17, 99]

/-! ## `server/index.js` -/

/-- A resolved absolute path: the names below the root, outermost first. -/
abbrev Path := List JSString

/-- The effect of one component of a name on the directory reached so far, as
`path.join` normalises it: an empty component and `.` stay, `..` goes up (the
root is its own parent), any other component goes down. -/
def applySegment (dir : Path) (seg : JSString) : Path :=
  if seg = [] ∨ seg = [46] then dir
  else if seg = [46, 46] then dir.dropLast
  else dir ++ [seg]

/-- The walk of `path.join(dir, name)` through `name`, split at `/`; `seg` is the
component being read. -/
def joinWalk (dir : Path) (seg : JSString) : JSString → Path
  | [] => applySegment dir seg
  | c :: rest =>
    if c = 47 then joinWalk (applySegment dir seg) [] rest
    else joinWalk dir (seg ++ [c]) rest

/-- The result of `path.join(dir, name)`: the path it resolves to, and whether
the text ends in `/`, which `path.join` keeps and which makes the path name a
directory only. -/
structure JoinedPath where
  segments : Path
  trailingSlash : Bool
  deriving DecidableEq, Repr

/-- `path.join(dir, name)` for a resolved directory `dir`. -/
def pathJoin (dir : Path) (name : JSString) : JoinedPath :=
  { segments := joinWalk dir [] name, trailingSlash := name.getLast? == some 47 }

/-- What a file holds.  A file written as `JSON.stringify(doc, null, 2)` is kept
as the document `doc`: its bytes are that text and `JSON.parse` of the text is
the document. -/
inductive FileContent where
  | bytes (content : Bytes)
  | json (doc : Json)

/-- What exists at a path. -/
inductive Node where
  | file (content : FileContent)
  | directory

/-- The file system: what exists at each resolved path; `none` is "nothing". -/
structure FileSystem where
  node : Path → Option Node

/-- The built-ins and surroundings the server code relies on. -/
structure ServerEnv where
  /-- The directory `__dirname`. -/
  dirname : Path
  /-- The built-in `JSON.parse`. -/
  jsonParse : JSString → Except String Json
  /-- `JSON.parse` of the UTF-8 text of a file that was not written as JSON. -/
  parseFile : Bytes → Except String Json
  /-- The bytes of `Buffer.from(JSON.stringify(v))`. -/
  jsonStringifyUtf8 : Json → Bytes
  /-- The UTF-8 bytes of `JSON.stringify(v, null, 2)`. -/
  jsonStringifyPretty : Json → Bytes
  /-- The text a template literal inserts for a value that is not a string. -/
  toStringValue : Option Json → JSString
  /-- Whether the file system lets a file be created at, or moved to, this path
  (length of the name, free space, permissions). -/
  fsAccepts : Path → Bool

/-- The constant `uploadsDir` (line 17). -/
def uploadsDir (env : ServerEnv) : Path := (pathJoin env.dirname (lit "uploads")).segments

/-- The constant `metaDir` (line 18). -/
def metaDir (env : ServerEnv) : Path := (pathJoin env.dirname (lit "metadata")).segments

/-- Whether a resolved path is a directory; the root is one. -/
def FileSystem.isDirectory (fs : FileSystem) (p : Path) : Bool :=
  p.isEmpty ||
    (match fs.node p with
     | some .directory => true
     | _ => false)

/-- What a system call finds at the result of `path.join`: a file is not found
under a name that ends in `/`. -/
def FileSystem.stat (fs : FileSystem) (p : JoinedPath) : Option Node :=
  if p.segments.isEmpty then some .directory
  else match fs.node p.segments with
    | some (.file content) => if p.trailingSlash then none else some (.file content)
    | other => other

/-- Creating or replacing the file at `p` (`fs.writeFileSync`, the write stream
of `multer`).  It fails when `p` names a directory, when the parent of `p` is
not a directory, and when the file system refuses the path. -/
def FileSystem.writeFile (env : ServerEnv) (fs : FileSystem) (p : JoinedPath)
    (content : FileContent) : Except String FileSystem :=
  if p.trailingSlash || fs.isDirectory p.segments then
    .error "EISDIR: illegal operation on a directory"
  else if !fs.isDirectory p.segments.dropLast then
    .error "ENOENT: no such file or directory"
  else if !env.fsAccepts p.segments then
    .error "ENAMETOOLONG: name too long"
  else
    .ok { node := fun q => if q = p.segments then some (.file content) else fs.node q }

/-- `fs.unlinkSync(p)`: removes a file; anything else is an error. -/
def FileSystem.unlink (fs : FileSystem) (p : JoinedPath) : Except String FileSystem :=
  match fs.stat p with
  | some (.file _) => .ok { node := fun q => if q = p.segments then none else fs.node q }
  | some .directory => .error "EISDIR: illegal operation on a directory"
  | none => .error "ENOENT: no such file or directory"

/-- `fs.renameSync(source, target)` for a source that is a file, as is the file
`multer` wrote: it fails when the source does not exist, when the target names
a directory, when the parent of the target is not a directory, and when the
file system refuses the target; a file at the target is replaced.  A directory
as source is not followed further and reported as an error. -/
def FileSystem.rename (env : ServerEnv) (fs : FileSystem) (source target : JoinedPath) :
    Except String FileSystem :=
  match fs.stat source with
  | none => .error "ENOENT: no such file or directory"
  | some .directory => .error "EISDIR: illegal operation on a directory"
  | some (.file content) =>
    if target.trailingSlash || fs.isDirectory target.segments then
      .error "EISDIR: illegal operation on a directory"
    else if !fs.isDirectory target.segments.dropLast then
      .error "ENOENT: no such file or directory"
    else if !env.fsAccepts target.segments then
      .error "ENAMETOOLONG: name too long"
    else
      .ok { node := fun q =>
        if q = target.segments then some (.file content)
        else if q = source.segments then none
        else fs.node q }

/-- The bytes a read stream delivers for a file. -/
def FileContent.read (env : ServerEnv) : FileContent → Bytes
  | .bytes content => content
  | .json doc => env.jsonStringifyPretty doc

/-- `JSON.parse(fs.readFileSync(path, 'utf8'))` for a file. -/
def FileContent.parse (env : ServerEnv) : FileContent → Except String Json
  | .bytes content => env.parseFile content
  | .json doc => .ok doc

/-- The code units Node accepts in the value of a header, which are also the
bytes `busboy` accepts in the value of a quoted parameter: a tab, 0x20 to 0x7e,
and 0x80 to 0xff. -/
def fieldChar (c : Nat) : Bool :=
  c == 9 || (32 ≤ c && c ≤ 126) || (128 ≤ c && c ≤ 255)

/-- The `filename` of an uploaded part as the client sent it: the bytes of the
value of the plain `filename="..."` parameter, which `multer` (through `busboy`)
reads as latin1, one code unit per byte; or the text of the extended
`filename*=` parameter, already decoded. -/
inductive PartName where
  | raw (bytes : Bytes)
  | extended (name : JSString)

/-- The name without its directories, as `busboy` cuts it: what follows the last
`/` or `\`; `.` and `..` become the empty name. -/
def busboyBasename (path : JSString) : JSString :=
  let name := (path.reverse.takeWhile (fun c => c != 47 && c != 92)).reverse
  if name = [46] ∨ name = [46, 46] then [] else name

/-- The `originalname` that `multer` derives from the part; the empty name
stands for "no file": `busboy` skips a part whose plain parameter holds a byte
it does not accept, and `multer` skips a file without a name. -/
def PartName.originalname : PartName → JSString
  | .raw bytes =>
    if bytes.all fieldChar then busboyBasename (bytes.map (fun b => b % 256)) else []
  | .extended name => busboyBasename name

/-- `req.file` as `multer` leaves it (the fields the handler reads). -/
structure MulterFile where
  path : JoinedPath
  originalname : JSString

/-- `req.body.metadata`: absent, a text field, or the array or object `multer`
builds from repeated or bracketed field names. -/
inductive BodyField where
  | absent
  | text (s : JSString)
  | value (v : Json)

/-- The middleware `upload.single("file")` with the disk storage configured at
the top of the file.  A part whose name is empty is skipped and leaves
`req.file` undefined; otherwise the content is written to `uploadsDir` under
`Date.now()` (its decimal text `now`), `_` and the original name.  A failed write
is an error passed to Express. -/
def multerSingle (env : ServerEnv) (now : JSString) (part : Option (PartName × Bytes))
    (fs : FileSystem) : Except String (FileSystem × Option MulterFile) :=
  match part with
  | none => .ok (fs, none)
  | some (name, content) =>
    let originalname := name.originalname
    if originalname.isEmpty then .ok (fs, none)
    else
      let filename := now ++ lit "_" ++ originalname
      let finalPath := pathJoin (uploadsDir env) filename
      match fs.writeFile env finalPath (.bytes content) with
      | .error e => .error e
      | .ok fs => .ok (fs, some { path := finalPath, originalname := originalname })

/-- The result of `POST /upload`. -/
inductive UploadResponse where
  /-- Status 200 with `message`, `id` and `metadata`. -/
  | ok (id : JSString) (metadata : Json)
  /-- Status 400 with `error`. -/
  | badRequest (error : String)
  /-- Status 500 with `error: "Upload failed"` and `details`. -/
  | serverError (details : String)
  /-- Status 500 from the error handler of Express, for an error of the
  middleware. -/
  | failed (message : String)

/-- Replacing the value of an own property of an object, or adding the
property after the others. -/
def setField : List (JSString × Json) → JSString → Json → List (JSString × Json)
  | [], key, value => [(key, value)]
  | (k, v) :: rest, key, value =>
    if k = key then (key, value) :: rest else (k, v) :: setField rest key value

/-- The statement `target.key = value` as far as JSON text shows it: an object
gets the property; a property put on an array is not part of its JSON text; an
assignment to a number, string or boolean is ignored (the file is not in strict
mode); on `null` it is a `TypeError`. -/
def assignProp (target : Json) (key : JSString) (value : Json) : Except String Json :=
  match target with
  | .obj fields => .ok (.obj (setField fields key value))
  | .null => .error "Cannot set properties of null"
  | other => .ok other

/-- Lines 39 to 49 of the upload handler: the caller's metadata, `{}` when the
field is falsy, the parsed text when it is a string, the value itself
otherwise. -/
def callerMetadata (env : ServerEnv) (field : BodyField) : Except String Json :=
  match field with
  | .absent => .ok (.obj [])
  | .text s => if s.isEmpty then .ok (.obj []) else env.jsonParse s
  | .value v => if v.truthy then .ok v else .ok (.obj [])

/-- Lines 57 to 60 of the upload handler: the four assignments. -/
def extendMetadata (metadata : Json) (id originalname savedFilename timestamp : JSString) :
    Except String Json := do
  let metadata ← assignProp metadata (lit "id") (.str id)
  let metadata ← assignProp metadata (lit "originalFilename") (.str originalname)
  let metadata ← assignProp metadata (lit "savedFilename") (.str savedFilename)
  assignProp metadata (lit "uploadTime") (.str timestamp)

/-- The handler of `POST /upload`; `uuid` is the result of `uuidv4()` and
`timestamp` that of `new Date().toISOString()`.  An exception of a file system
call is caught by the outer `try` and answered with status 500. -/
def uploadHandler (env : ServerEnv) (uuid timestamp : JSString) (file : Option MulterFile)
    (field : BodyField) (fs : FileSystem) : FileSystem × UploadResponse :=
  match file with
  | none => (fs, .badRequest "No file received")
  | some file =>
    let id := uuid
    match callerMetadata env field with
    | .error _ =>
      match fs.unlink file.path with
      | .error e => (fs, .serverError e)
      | .ok fs => (fs, .badRequest "Invalid metadata JSON")
    | .ok metadata =>
      let savedFilename := id ++ lit "_" ++ file.originalname
      let savedPath := pathJoin (uploadsDir env) savedFilename
      match fs.rename env file.path savedPath with
      | .error e => (fs, .serverError e)
      | .ok fs =>
        match extendMetadata metadata id file.originalname savedFilename timestamp with
        | .error e => (fs, .serverError e)
        | .ok metadata =>
          let metaPath := pathJoin (metaDir env) (id ++ lit ".json")
          match fs.writeFile env metaPath (.json metadata) with
          | .error e => (fs, .serverError e)
          | .ok fs => (fs, .ok id metadata)

/-- `POST /upload`: the middleware, then the handler. -/
def postUpload (env : ServerEnv) (uuid timestamp now : JSString)
    (part : Option (PartName × Bytes)) (field : BodyField) (fs : FileSystem) :
    FileSystem × UploadResponse :=
  match multerSingle env now part fs with
  | .error e => (fs, .failed e)
  | .ok (fs, file) => uploadHandler env uuid timestamp file field fs

/-- The result of `GET /file/:id`. -/
inductive FileResponse where
  /-- Status 200: the headers `X-Metadata` and `Content-Disposition`, and the body. -/
  | ok (xMetadata contentDisposition : JSString) (body : Bytes)
  /-- Status 404 with `error`. -/
  | notFound (error : String)
  /-- Status 500: an exception left the handler, or the stream failed. -/
  | serverError

/-- What Node accepts as the value of a header: a tab, or a code unit from
0x20 to 0x7e or from 0x80 to 0xff; `setHeader` throws on anything else. -/
def validHeaderValue (value : JSString) : Bool :=
  value.all fieldChar

/-- The value set for `Content-Disposition`. -/
def contentDisposition (env : ServerEnv) (originalFilename : Option Json) : JSString :=
  let name := match originalFilename with
    | some (.str s) => s
    | other => env.toStringValue other
  lit "attachment; filename=" ++ [34] ++ name ++ [34]

/-- The handler of `GET /file/:id`; `id` is the decoded route parameter, which
may contain `/`.  `fs.existsSync` is true for a directory too.  Reading a
directory, text that is not JSON, a `savedFilename` that is not a string
(`path.join` throws), a header value Node refuses and a failing stream all end
in status 500. -/
def getFile (env : ServerEnv) (fs : FileSystem) (id : JSString) : FileResponse :=
  let metaPath := pathJoin (metaDir env) (id ++ lit ".json")
  match fs.stat metaPath with
  | none => .notFound "Metadata not found"
  | some .directory => .serverError
  | some (.file text) =>
    match text.parse env with
    | .error _ => .serverError
    | .ok doc =>
      match doc.getProp (lit "savedFilename") with
      | .ok (some (.str savedFilename)) =>
        let filePath := pathJoin (uploadsDir env) savedFilename
        match fs.stat filePath with
        | none => .notFound "File missing"
        | some node =>
          let xMetadata := base64Encode (env.jsonStringifyUtf8 doc)
          match doc.getProp (lit "originalFilename") with
          | .error _ => .serverError
          | .ok originalFilename =>
            let disposition := contentDisposition env originalFilename
            if validHeaderValue disposition then
              match node with
              | .file content => .ok xMetadata disposition (content.read env)
              | .directory => .serverError
            else .serverError
      | _ => .serverError

/-! ## A small instance of the server surroundings

Used to run the handlers on concrete requests.  The server lives in `/srv`;
the parser of request texts knows `[]`, `{}`, `5` and `null`; the parser of files knows
one text, `demoRecordText`; the file system refuses a name that has a NUL or
more than 255 bytes in UTF-8. -/

/-- The number of bytes of a code unit in UTF-8 (a surrogate counts for half of
the four bytes of its pair). -/
def utf8Length (c : Nat) : Nat :=
  if c < 128 then 1 else if c < 2048 then 2 else if 0xD800 ≤ c ∧ c ≤ 0xDFFF then 2 else 3

/-- The text `{"savedFilename":"u1_x.json"}`. -/
def demoRecordText : Bytes :=
  [123, 34] ++ lit "savedFilename" ++ [34, 58, 34] ++ lit "u1_x.json" ++ [34, 125]

/-- The instance. -/
def demoServer : ServerEnv where
  dirname := [lit "srv"]
  jsonParse := fun s =>
    if s = [91, 93] then .ok (.arr [])
    else if s = [123, 125] then .ok (.obj [])
    else if s = [53] then .ok (.num 5)
    else if s = lit "null" then .ok .null
    else .error "Unexpected token"
  parseFile := fun b =>
    if b = demoRecordText then .ok (.obj [(lit "savedFilename", .str (lit "u1_x.json"))])
    else .error "Unexpected token"
  jsonStringifyUtf8 := fun _ => lit "json"
  jsonStringifyPretty := fun _ => lit "json"
  toStringValue := fun _ => lit "undefined"
  fsAccepts := fun p =>
    p.all (fun seg => decide ((seg.map utf8Length).sum ≤ 255) && !seg.contains 0)

/-- The file system right after the start of the server in an empty `/srv`:
the directories `/srv`, `/srv/uploads` and `/srv/metadata` (lines 19 and 20). -/
def demoFs : FileSystem where
  node := fun p =>
    if p = [lit "srv"] ∨ p = [lit "srv", lit "uploads"] ∨ p = [lit "srv", lit "metadata"]
    then some .directory else none

/-- The file at a path, removed from outside the server. -/
def FileSystem.removed (fs : FileSystem) (p : Path) : FileSystem :=
  { node := fun q => if q = p then none else fs.node q }

end Vault

namespace Vault

/-! ## Lemmas on the typed-array fill loops -/

theorem foldl_set_length (f : Nat → Nat) (k : Nat) (u : List Nat) :
    ((List.range k).foldl (fun u i => u.set i (f i)) u).length = u.length := by
  induction k with
  | zero => simp
  | succ k ih => simp [List.range_succ, List.foldl_append, ih]

theorem foldl_set_getElem? (f : Nat → Nat) (k : Nat) (u : List Nat) (j : Nat) :
    ((List.range k).foldl (fun u i => u.set i (f i)) u)[j]? =
      if j < k ∧ j < u.length then some (f j) else u[j]? := by
  induction k with
  | zero => simp
  | succ k ih =>
    simp only [List.range_succ, List.foldl_append, List.foldl_cons, List.foldl_nil,
      List.getElem?_set, foldl_set_length, ih]
    by_cases hkj : k = j
    · subst hkj
      by_cases hk : k < u.length
      · simp [hk]
      · simp [hk]
        omega
    · simp only [hkj, if_false]
      by_cases hj : j < k
      · have : j < k + 1 := by omega
        simp [hj, this]
      · have : ¬ j < k + 1 := by omega
        simp [hj, this]

theorem foldl_set_range (f : Nat → Nat) (n m : Nat) (h : n ≤ m) :
    (List.range m).foldl (fun u i => u.set i (f i)) (List.replicate n 0) =
      (List.range n).map f := by
  apply List.ext_getElem?
  intro j
  rw [foldl_set_getElem?]
  by_cases hj : j < n
  · have : j < m := by omega
    simp [hj, this]
  · have h1 : n ≤ j := by omega
    have h2 : (List.range n).length ≤ j := by simpa using h1
    simp [hj, List.getElem?_replicate, List.getElem?_eq_none h2]

theorem charCode_loop (binary : JSString) (hb : IsBytes binary) :
    (List.range binary.length).foldl
      (fun u8 i => u8.set i (toUint8 (some (binary.getD i 0 : Nat))))
      (List.replicate binary.length 0) = binary := by
  rw [foldl_set_range _ _ _ (Nat.le_refl _)]
  apply List.ext_getElem?
  intro j
  by_cases hj : j < binary.length
  · rw [List.getElem?_map, List.getElem?_range hj, List.getElem?_eq_getElem hj]
    simp only [Option.map_some', Option.some.injEq]
    have hlt : binary[j] < 256 := hb _ (List.getElem_mem hj)
    have hget : binary.getD j 0 = binary[j] := by
      simp [List.getD, List.getElem?_eq_getElem hj]
    rw [hget]
    simp only [toUint8]
    omega
  · have h1 : binary.length ≤ j := by omega
    rw [List.getElem?_eq_none h1, List.getElem?_eq_none (by simpa using h1)]

/-! ## Hex codec -/

set_option maxRecDepth 100000 in
theorem hexByte_roundtrip :
    ∀ b, b < 256 → toUint8 (parseInt16 (padStart2 (toString16 b))) = b := by
  decide

set_option maxRecDepth 100000 in
theorem hexByte_shape :
    ∀ b, b < 256 → (padStart2 (toString16 b)).length = 2 ∧
      (padStart2 (toString16 b)).all (fun c => !isJsWhiteSpace c) = true := by
  decide

/-- The fill loop of `hexToArrayBuffer` written as a map over the indices of the array. -/
theorem hexToArrayBuffer_eq (hex : JSString) :
    hexToArrayBuffer hex =
      if hex.isEmpty then []
      else (List.range ((hex.filter (fun c => !isJsWhiteSpace c)).length / 2)).map
        (fun i => toUint8 (parseInt16
          (substr (hex.filter (fun c => !isJsWhiteSpace c)) (i * 2) 2))) := by
  unfold hexToArrayBuffer
  split
  · rfl
  · exact foldl_set_range _ _ _ (by omega)

/-- Hex text of a byte list, the body of `arrayBufferToHex`. -/
theorem arrayBufferToHex_cons (b : Nat) (rest : Bytes) :
    arrayBufferToHex (.arrayBuffer (b :: rest)) =
      padStart2 (toString16 b) ++ arrayBufferToHex (.arrayBuffer rest) := by
  simp [arrayBufferToHex, newUint8Array]

theorem arrayBufferToHex_length (B : Bytes) (hB : IsBytes B) :
    (arrayBufferToHex (.arrayBuffer B)).length = 2 * B.length := by
  induction B with
  | nil => rfl
  | cons b rest ih =>
    have hb : b < 256 := hB b (List.mem_cons_self _ _)
    have hrest : IsBytes rest := fun x hx => hB x (List.mem_cons_of_mem _ hx)
    rw [arrayBufferToHex_cons, List.length_append, (hexByte_shape b hb).1, ih hrest]
    simp only [List.length_cons]; omega

theorem arrayBufferToHex_clean (B : Bytes) (hB : IsBytes B) :
    (arrayBufferToHex (.arrayBuffer B)).filter (fun c => !isJsWhiteSpace c) = arrayBufferToHex (.arrayBuffer B) := by
  induction B with
  | nil => rfl
  | cons b rest ih =>
    have hb : b < 256 := hB b (List.mem_cons_self _ _)
    have hrest : IsBytes rest := fun x hx => hB x (List.mem_cons_of_mem _ hx)
    rw [arrayBufferToHex_cons, List.filter_append, ih hrest]
    congr 1
    rw [List.filter_eq_self]
    exact List.all_eq_true.mp (hexByte_shape b hb).2

theorem arrayBufferToHex_substr (B : Bytes) (hB : IsBytes B) (i b : Nat)
    (hi : B[i]? = some b) :
    substr (arrayBufferToHex (.arrayBuffer B)) (i * 2) 2 = padStart2 (toString16 b) := by
  induction B generalizing i with
  | nil => simp at hi
  | cons b0 rest ih =>
    have hb : b0 < 256 := hB b0 (List.mem_cons_self _ _)
    have hrest : IsBytes rest := fun x hx => hB x (List.mem_cons_of_mem _ hx)
    have hlen := (hexByte_shape b0 hb).1
    rw [arrayBufferToHex_cons]
    cases i with
    | zero =>
      simp only [List.getElem?_cons_zero, Option.some.injEq] at hi
      subst hi
      simp only [substr, Nat.zero_mul, List.drop_zero]
      rw [List.take_append_of_le_length (by omega), List.take_of_length_le (by omega)]
    | succ i =>
      simp only [List.getElem?_cons_succ] at hi
      have h2 : (i + 1) * 2 = (padStart2 (toString16 b0)).length + i * 2 := by omega
      simp only [substr, h2, List.drop_append]
      exact ih hrest i hi

theorem hex_roundtrip (B : Bytes) (hB : IsBytes B) :
    hexToArrayBuffer (arrayBufferToHex (.arrayBuffer B)) = B := by
  rw [hexToArrayBuffer_eq, arrayBufferToHex_clean B hB, arrayBufferToHex_length B hB]
  cases B with
  | nil => rfl
  | cons b0 rest =>
    have hne : (arrayBufferToHex (.arrayBuffer (b0 :: rest))).isEmpty = false := by
      have := arrayBufferToHex_length (b0 :: rest) hB
      cases h : arrayBufferToHex (.arrayBuffer (b0 :: rest)) with
      | nil => rw [h] at this; simp at this
      | cons _ _ => rfl
    rw [hne]
    simp only [Bool.false_eq_true, if_false]
    have h2 : 2 * (b0 :: rest).length / 2 = (b0 :: rest).length := by omega
    rw [h2]
    apply List.ext_getElem?
    intro j
    by_cases hj : j < (b0 :: rest).length
    · have hget : (b0 :: rest)[j]? = some ((b0 :: rest)[j]) := List.getElem?_eq_getElem hj
      rw [List.getElem?_map, List.getElem?_range hj, hget]
      simp only [Option.map_some']
      rw [arrayBufferToHex_substr _ hB j _ hget,
        hexByte_roundtrip _ (hB _ (List.getElem_mem hj))]
    · have h1 : (b0 :: rest).length ≤ j := by omega
      rw [List.getElem?_eq_none h1, List.getElem?_eq_none (by simpa using h1)]

/-! ## Base64 codec -/

theorem base64Index_base64Char : ∀ s, s < 64 → base64Index (base64Char s) = some s := by
  decide

theorem base64Char_shape : ∀ s, s < 64 →
    base64Char s ≠ 61 ∧ isAsciiWhiteSpace (base64Char s) = false := by
  decide

theorem sextets_lt (B : Bytes) (hB : IsBytes B) : ∀ s ∈ sextets B, s < 64 := by
  induction B using sextets.induct with
  | case1 => simp [sextets]
  | case2 a =>
    have ha : a < 256 := hB a (by simp)
    intro s hs
    simp only [sextets, List.mem_cons, List.mem_singleton, List.not_mem_nil, or_false] at hs
    omega
  | case3 a b =>
    have ha : a < 256 := hB a (by simp)
    have hb : b < 256 := hB b (by simp)
    intro s hs
    simp only [sextets, List.mem_cons, List.mem_singleton, List.not_mem_nil, or_false] at hs
    omega
  | case4 a b c rest ih =>
    have ha : a < 256 := hB a (by simp)
    have hb : b < 256 := hB b (by simp)
    have hc : c < 256 := hB c (by simp)
    have hrest : IsBytes rest := fun x hx => hB x (by simp [hx])
    intro s hs
    simp only [sextets, List.mem_cons] at hs
    rcases hs with h | h | h | h | h
    · omega
    · omega
    · omega
    · omega
    · exact ih hrest s h

theorem sextets_length (B : Bytes) : (sextets B).length = (4 * B.length + 2) / 3 := by
  induction B using sextets.induct with
  | case1 => rfl
  | case2 a => simp [sextets]
  | case3 a b => simp [sextets]
  | case4 a b c rest ih =>
    simp only [sextets, List.length_cons, ih]
    omega

theorem unsextets_sextets (B : Bytes) (hB : IsBytes B) : unsextets (sextets B) = B := by
  induction B using sextets.induct with
  | case1 => rfl
  | case2 a =>
    have ha : a < 256 := hB a (by simp)
    simp only [sextets, unsextets, List.cons.injEq, and_true]
    omega
  | case3 a b =>
    have ha : a < 256 := hB a (by simp)
    have hb : b < 256 := hB b (by simp)
    simp only [sextets, unsextets, List.cons.injEq, and_true]
    omega
  | case4 a b c rest ih =>
    have ha : a < 256 := hB a (by simp)
    have hb : b < 256 := hB b (by simp)
    have hc : c < 256 := hB c (by simp)
    have hrest : IsBytes rest := fun x hx => hB x (by simp [hx])
    simp only [sextets, unsextets, ih hrest, List.cons.injEq, and_true]
    omega

theorem dropPadding_append (E : JSString) (hE : ∀ c ∈ E, c ≠ 61) (p : Nat) (hp : p ≤ 2) :
    dropPadding (E ++ List.replicate p 61) = E := by
  have hlast : E.getLast? ≠ some 61 := fun h => hE 61 (List.mem_of_getLast?_eq_some h) rfl
  have h1 : p = 0 ∨ p = 1 ∨ p = 2 := by omega
  rcases h1 with h | h | h
  · subst h
    simp [dropPadding, hlast]
  · subst h
    simp [dropPadding, hlast]
  · subst h
    have : E ++ List.replicate 2 61 = (E ++ [61]) ++ [61] := by simp [List.replicate]
    rw [this]
    simp [dropPadding]

theorem atob_base64Encode (B : Bytes) (hB : IsBytes B) : atob (base64Encode B) = some B := by
  have hlt := sextets_lt B hB
  have hlen := sextets_length B
  have hp : (3 - B.length % 3) % 3 ≤ 2 := by omega
  have hE : ∀ c ∈ (sextets B).map base64Char, c ≠ 61 := by
    intro c hc
    obtain ⟨s, hs, rfl⟩ := List.mem_map.mp hc
    exact (base64Char_shape s (hlt s hs)).1
  have hfilter : (base64Encode B).filter (fun c => !isAsciiWhiteSpace c) = base64Encode B := by
    rw [List.filter_eq_self]
    intro c hc
    simp only [base64Encode, List.mem_append, List.mem_map, List.mem_replicate] at hc
    rcases hc with ⟨s, hs, rfl⟩ | ⟨_, rfl⟩
    · simp [(base64Char_shape s (hlt s hs)).2]
    · decide
  have hlen4 : (base64Encode B).length % 4 = 0 := by
    simp only [base64Encode, List.length_append, List.length_map, List.length_replicate, hlen]
    clear hlen hp
    generalize B.length = n
    obtain ⟨k, hk | hk | hk⟩ : ∃ k, n = 3 * k ∨ n = 3 * k + 1 ∨ n = 3 * k + 2 :=
      ⟨n / 3, by omega⟩
    · subst hk; omega
    · subst hk; omega
    · subst hk; omega
  have hlenE : ((sextets B).map base64Char).length % 4 ≠ 1 := by
    simp only [List.length_map, hlen]
    clear hlen hp
    generalize B.length = n
    obtain ⟨k, hk | hk | hk⟩ : ∃ k, n = 3 * k ∨ n = 3 * k + 1 ∨ n = 3 * k + 2 :=
      ⟨n / 3, by omega⟩
    · subst hk; omega
    · subst hk; omega
    · subst hk; omega
  have hall : ((sextets B).map base64Char).all (fun c => (base64Index c).isSome) = true := by
    rw [List.all_eq_true]
    intro c hc
    obtain ⟨s, hs, rfl⟩ := List.mem_map.mp hc
    simp [base64Index_base64Char s (hlt s hs)]
  have hmap : ((sextets B).map base64Char).map (fun c => (base64Index c).getD 0) = sextets B := by
    rw [List.map_map]
    conv_rhs => rw [← List.map_id (sextets B)]
    apply List.map_congr_left
    intro s hs
    simp [base64Index_base64Char s (hlt s hs)]
  unfold atob
  simp only [hfilter, hlen4, if_true]
  rw [show dropPadding (base64Encode B) = (sextets B).map base64Char from
    dropPadding_append _ hE _ hp]
  rw [if_neg hlenE, if_pos hall, hmap, unsextets_sextets B hB]

theorem foldl_append_singleton (g : Nat → Nat) (B acc : List Nat) :
    B.foldl (fun binary b => binary ++ [g b]) acc = acc ++ B.map g := by
  induction B generalizing acc with
  | nil => simp
  | cons b rest ih => simp [ih]

theorem arrayBufferToBase64_eq (B : Bytes) (hB : IsBytes B) :
    arrayBufferToBase64 (.arrayBuffer B) = some (base64Encode B) := by
  have hmap : B.map (fun b => b % 65536) = B := by
    conv_rhs => rw [← List.map_id B]
    apply List.map_congr_left
    intro b hb
    have := hB b hb
    simp only [id]
    omega
  unfold arrayBufferToBase64 btoa
  simp only [newUint8Array]
  rw [foldl_append_singleton, List.nil_append, hmap, if_pos]
  rw [List.all_eq_true]
  intro c hc
  have := hB c hc
  simp only [decide_eq_true_eq]
  omega

theorem base64ToArrayBuffer_eq (base64 binary : JSString) (h : atob base64 = some binary)
    (hb : IsBytes binary) : base64ToArrayBuffer base64 = some binary := by
  unfold base64ToArrayBuffer
  rw [h]
  simp only [Option.some.injEq]
  exact charCode_loop binary hb

/-! ## The envelope: payload check, encrypt flow, decrypt flow -/

theorem everyMatches_iff (c d : Bytes) (h : c.length = d.length) :
    everyMatches c d = true ↔ c = d := by
  unfold everyMatches
  rw [List.all_eq_true]
  constructor
  · intro hall
    apply List.ext_getElem?
    intro i
    by_cases hi : i < c.length
    · have := hall i (List.mem_range.mpr hi)
      simp only [beq_iff_eq] at this
      rw [this, List.getElem?_eq_getElem hi]
      simp [List.getD, List.getElem?_eq_getElem hi]
    · have h1 : c.length ≤ i := by omega
      have h2 : d.length ≤ i := by omega
      rw [List.getElem?_eq_none h1, List.getElem?_eq_none h2]
  · rintro rfl i hi
    have hi := List.mem_range.mp hi
    simp [List.getD, List.getElem?_eq_getElem hi]

theorem verifyPayload_short (dg : Bytes → Bytes) (P : Bytes) (h : P.length < 32) :
    verifyPayload dg P = .error "Decrypted payload too small" := by
  simp [verifyPayload, h]

theorem verifyPayload_long (dg : Bytes → Bytes) (hlen : ∀ x, (dg x).length = 32) (P : Bytes)
    (h : 32 ≤ P.length) :
    verifyPayload dg P =
      if P.drop (P.length - 32) = dg (P.take (P.length - 32))
      then .ok (P.take (P.length - 32))
      else .error "Hash verification failed — file integrity compromised!" := by
  have hl : (dg (P.take (P.length - 32))).length = (P.drop (P.length - 32)).length := by
    rw [hlen, List.length_drop]; omega
  have hiff := everyMatches_iff _ _ hl
  have hnot : ¬ P.length < 32 := by omega
  unfold verifyPayload
  rw [if_neg hnot]
  by_cases heq : P.drop (P.length - 32) = dg (P.take (P.length - 32))
  · rw [if_pos heq]
    have : everyMatches (dg (P.take (P.length - 32))) (P.drop (P.length - 32)) = true :=
      hiff.mpr heq.symm
    simp [this]
  · rw [if_neg heq]
    have : everyMatches (dg (P.take (P.length - 32))) (P.drop (P.length - 32)) = false := by
      cases hv : everyMatches (dg (P.take (P.length - 32))) (P.drop (P.length - 32)) with
      | false => rfl
      | true => exact absurd (hiff.mp hv).symm heq
    simp [this]

theorem verifyPayload_append (dg : Bytes → Bytes) (hlen : ∀ x, (dg x).length = 32) (F : Bytes) :
    verifyPayload dg (F ++ dg F) = .ok F := by
  have h32 : 32 ≤ (F ++ dg F).length := by rw [List.length_append, hlen]; omega
  have hn : (F ++ dg F).length - 32 = F.length := by rw [List.length_append, hlen]; omega
  rw [verifyPayload_long dg hlen _ h32, hn, List.take_left, List.drop_left, if_pos rfl]

theorem typedArraySet_payload (F D : Bytes) :
    (typedArraySet (List.replicate (F.length + D.length) 0) F 0).bind
      (fun payload => typedArraySet payload D F.length) = .ok (F ++ D) := by
  have h1 : typedArraySet (List.replicate (F.length + D.length) 0) F 0 =
      .ok (F ++ List.replicate D.length 0) := by
    unfold typedArraySet
    rw [if_pos (by simp)]
    simp [List.drop_replicate]
  rw [h1]
  show typedArraySet (F ++ List.replicate D.length 0) D F.length = _
  unfold typedArraySet
  rw [if_pos (by simp)]
  simp [List.take_left, List.drop_append]

theorem hexToArrayBufferOf_hex (B : Bytes) (hB : IsBytes B) :
    hexToArrayBufferOf (some (.str (arrayBufferToHex (.arrayBuffer B)))) = .ok B := by
  cases B with
  | nil => rfl
  | cons b rest =>
    have hlen := arrayBufferToHex_length (b :: rest) hB
    have hne : (arrayBufferToHex (.arrayBuffer (b :: rest))).isEmpty = false := by
      cases h : arrayBufferToHex (.arrayBuffer (b :: rest)) with
      | nil => rw [h] at hlen; simp at hlen
      | cons _ _ => rfl
    simp only [hexToArrayBufferOf, truthy, Json.truthy, hne, Bool.not_false, Bool.not_true,
      Bool.false_eq_true, if_false]
    rw [hex_roundtrip _ hB]

theorem encryptFlow_inv {PublicKey PrivateKey AesKey : Type}
    (wc : WebCrypto PublicKey PrivateKey AesKey) (pubText fileName : JSString)
    (F : Bytes) (k : AesKey) (iv : Bytes) (out : EncryptedUpload)
    (henc : encryptFlow wc pubText fileName F k iv = .ok out) :
    ∃ c pub w b64 binary,
      wc.aesGcmEncrypt k iv (F ++ wc.digestSHA256 F) = .ok c ∧
      importRSAPublicKeyBase64 wc pubText = .ok pub ∧
      wc.rsaOaepEncrypt pub (wc.exportRaw k) = .ok w ∧
      arrayBufferToBase64 (.arrayBuffer c) = some b64 ∧
      atob b64 = some binary ∧
      out = {
        blob := (List.range binary.length).foldl
          (fun u8 i => u8.set i (toUint8 (some (binary.getD i 0 : Nat))))
          (List.replicate binary.length 0)
        blobName := fileName ++ lit ".enc"
        metadata := {
          filename := fileName ++ lit ".enc"
          originalFilename := fileName
          encryptedAESKeyHex := arrayBufferToHex (.arrayBuffer w)
          ivHex := arrayBufferToHex (.arrayBuffer iv)
          fileHashHex := arrayBufferToHex .undefined } } := by
  have hpay := typedArraySet_payload F (wc.digestSHA256 F)
  unfold encryptFlow at henc
  simp only [newUint8Array, sha256, exportAESRaw, aesGcmEncrypt, rsaEncrypt, BufferArg.buffer,
    bind, Except.bind, pure, Except.pure] at henc hpay
  cases h1 : typedArraySet (List.replicate (F.length + (wc.digestSHA256 F).length) 0) F 0 with
  | error e => rw [h1] at henc; simp at henc
  | ok v1 =>
    rw [h1] at henc hpay
    simp only at henc hpay
    rw [hpay] at henc
    simp only at henc
    cases hc : wc.aesGcmEncrypt k iv (F ++ wc.digestSHA256 F) with
    | error e => rw [hc] at henc; simp at henc
    | ok c =>
      rw [hc] at henc
      simp only at henc
      cases hp : importRSAPublicKeyBase64 wc pubText with
      | error e => rw [hp] at henc; simp at henc
      | ok pub =>
        rw [hp] at henc
        simp only at henc
        cases hw : wc.rsaOaepEncrypt pub (wc.exportRaw k) with
        | error e => rw [hw] at henc; simp at henc
        | ok w =>
          rw [hw] at henc
          simp only at henc
          cases hb : arrayBufferToBase64 (.arrayBuffer c) with
          | none => rw [hb] at henc; simp [orThrow] at henc
          | some b64 =>
            rw [hb] at henc
            simp only [orThrow] at henc
            cases ha : atob b64 with
            | none => rw [ha] at henc; simp at henc
            | some binary =>
              rw [ha] at henc
              simp only [Except.ok.injEq] at henc
              exact ⟨c, pub, w, b64, binary, rfl, rfl, hw, hb, ha, henc.symm⟩

theorem fetchFile_inv {PublicKey PrivateKey AesKey : Type}
    (env : DecryptEnv PublicKey PrivateKey AesKey) (pk fid : JSString) (f : Fetched)
    (h : fetchFile env pk fid = .ok f) :
    ∃ resp metaB64 text metaJson,
      pk ≠ [] ∧ fid ≠ [] ∧
      env.fetch (lit "http://localhost:4000/file/" ++ fid) = .ok resp ∧
      resp.ok = true ∧
      resp.xMetadata = some metaB64 ∧ metaB64 ≠ [] ∧
      atob metaB64 = some text ∧
      env.jsonParse text = .ok metaJson ∧
      metaJson.getProp (lit "encryptedAESKeyHex") = .ok f.encryptedAESKeyHex ∧
      metaJson.getProp (lit "ivHex") = .ok f.ivHex ∧
      metaJson.getProp (lit "originalFilename") = .ok f.originalFilename ∧
      truthy f.encryptedAESKeyHex = true ∧ truthy f.ivHex = true ∧
      resp.body = .ok f.ciphertextBuffer := by
  unfold fetchFile at h
  simp only [bind, Except.bind, pure, Except.pure, throw, throwThe, MonadExceptOf.throw] at h
  split at h
  · simp at h
  rename_i hpk
  split at h
  · simp at h
  rename_i hfid
  split at h
  · simp at h
  rename_i resp hresp
  split at h
  · simp at h
  rename_i hok
  split at h
  · simp at h
  rename_i metaB64 hmeta
  split at h
  · simp at h
  rename_i hne
  cases hatob : atob metaB64 with
  | none => rw [hatob] at h; simp [orThrow] at h
  | some text =>
    rw [hatob] at h
    simp only [orThrow] at h
    split at h
    · simp at h
    rename_i metaJson hparse
    split at h
    · simp at h
    rename_i enc henc
    split at h
    · simp at h
    rename_i ivv hiv
    split at h
    · simp at h
    rename_i orig horig
    split at h
    · simp at h
    rename_i htruthy
    split at h
    · simp at h
    rename_i body hbody
    simp only [Except.ok.injEq] at h
    subst h
    simp only [Bool.or_eq_true, Bool.not_eq_true', not_or, Bool.not_eq_false] at htruthy
    refine ⟨resp, metaB64, text, metaJson, ?_, ?_, hresp, ?_, hmeta, ?_, hatob, hparse, henc, hiv,
      horig, htruthy.1, htruthy.2, hbody⟩
    · intro h0; subst h0; simp at hpk
    · intro h0; subst h0; simp at hfid
    · simpa using hok
    · intro h0; subst h0; simp at hne

theorem unwrapKey_inv {PublicKey PrivateKey AesKey : Type}
    (wc : WebCrypto PublicKey PrivateKey AesKey) (privateKey : PrivateKey)
    (encHex ivHex : Option Json) (aesKey : AesKey) (iv : Bytes)
    (h : unwrapKey wc privateKey encHex ivHex = .ok (aesKey, iv)) :
    ∃ encBuf aesKeyRaw,
      hexToArrayBufferOf encHex = .ok encBuf ∧
      wc.rsaOaepDecrypt privateKey encBuf = .ok aesKeyRaw ∧
      wc.importRaw aesKeyRaw = .ok aesKey ∧
      hexToArrayBufferOf ivHex = .ok iv := by
  unfold unwrapKey at h
  simp only [bind, Except.bind, pure, Except.pure, rsaDecrypt, importAESRaw, newUint8Array] at h
  split at h
  · simp at h
  rename_i encBuf henc
  split at h
  · simp at h
  rename_i raw hraw
  split at h
  · simp at h
  rename_i key hkey
  split at h
  · simp at h
  rename_i ivb hivb
  simp only [Except.ok.injEq, Prod.mk.injEq] at h
  obtain ⟨rfl, rfl⟩ := h
  exact ⟨encBuf, raw, henc, hraw, hkey, hivb⟩

theorem decryptPayload_inv {PublicKey PrivateKey AesKey : Type}
    (wc : WebCrypto PublicKey PrivateKey AesKey) (aesKey : AesKey) (iv c content : Bytes)
    (h : decryptPayload wc aesKey iv c = .ok content) :
    ∃ P, wc.aesGcmDecrypt aesKey iv c = .ok P ∧ 32 ≤ P.length ∧
      everyMatches (wc.digestSHA256 (P.take (P.length - 32))) (P.drop (P.length - 32)) = true ∧
      content = P.take (P.length - 32) := by
  unfold decryptPayload at h
  simp only [bind, Except.bind, aesGcmDecrypt, newUint8Array, verifyPayload] at h
  split at h
  · simp at h
  rename_i P hP
  split at h
  · simp at h
  rename_i hlen
  split at h
  · simp at h
  rename_i hvalid
  simp only [Except.ok.injEq] at h
  refine ⟨P, hP, by omega, ?_, h.symm⟩
  simpa using hvalid

/-! ## Facts about the demo instance -/

theorem isBytes_reverse (b : Bytes) (h : IsBytes b) : IsBytes b.reverse :=
  fun x hx => h x (List.mem_reverse.mp hx)

theorem isBytes_append (a b : Bytes) (ha : IsBytes a) (hb : IsBytes b) : IsBytes (a ++ b) := by
  intro x hx
  rcases List.mem_append.mp hx with h | h
  · exact ha x h
  · exact hb x h

theorem demoCrypto_digest (x : Bytes) :
    IsBytes (demoCrypto.digestSHA256 x) ∧ (demoCrypto.digestSHA256 x).length = 32 := by
  constructor
  · intro y hy
    have := (List.mem_replicate.mp hy).2
    subst this
    exact Nat.mod_lt _ (by decide)
  · simp [demoCrypto]

theorem demoCrypto_aes (p c : Bytes) (hp : IsBytes p)
    (hc : demoCrypto.aesGcmEncrypt demoKey demoIv p = .ok c) :
    IsBytes c ∧ demoCrypto.aesGcmDecrypt demoKey demoIv c = .ok p := by
  simp only [demoCrypto, Except.ok.injEq] at hc
  subst hc
  exact ⟨isBytes_reverse p hp, by simp [demoCrypto]⟩

theorem demoCrypto_rsa (m w : Bytes) (hm : IsBytes m)
    (hw : demoCrypto.rsaOaepEncrypt () m = .ok w) :
    IsBytes w ∧ demoCrypto.rsaOaepDecrypt () w = .ok m := by
  simp only [demoCrypto, Except.ok.injEq] at hw
  subst hw
  exact ⟨isBytes_reverse m hm, by simp [demoCrypto]⟩

/-! ## The claims -/

/-- C1. Envelope round trip: when RSA-OAEP decryption under the private key
inverts encryption under the public key, AES-GCM decryption inverts encryption
under the same key and nonce, and the digest has 32 bytes, then for every file
`F` (the empty one included) the decrypt flow of `handleFetchAndDecrypt`, run on
the blob and the metadata fields the encrypt flow of `handleEncryptAndUpload`
produced, succeeds and returns exactly `F`. -/
theorem C1_envelope_round_trip {PublicKey PrivateKey AesKey : Type}
    (wc : WebCrypto PublicKey PrivateKey AesKey)
    (publicKeyHex privateKeyBase64 fileName : JSString)
    (pub : PublicKey) (priv : PrivateKey) (aesKey importedKey : AesKey)
    (iv F : Bytes) (out : EncryptedUpload)
    (hF : IsBytes F) (hiv : IsBytes iv)
    (hdigest : ∀ x, IsBytes (wc.digestSHA256 x) ∧ (wc.digestSHA256 x).length = 32)
    (hkey : IsBytes (wc.exportRaw aesKey))
    (hraw : wc.importRaw (wc.exportRaw aesKey) = .ok importedKey)
    (haes : ∀ p c, IsBytes p → wc.aesGcmEncrypt aesKey iv p = .ok c →
      IsBytes c ∧ wc.aesGcmDecrypt importedKey iv c = .ok p)
    (hpub : importRSAPublicKeyBase64 wc publicKeyHex = .ok pub)
    (hpriv : importRSAPrivateKeyBase64 wc (jsTrim privateKeyBase64) = .ok priv)
    (hrsa : ∀ m w, IsBytes m → wc.rsaOaepEncrypt pub m = .ok w →
      IsBytes w ∧ wc.rsaOaepDecrypt priv w = .ok m)
    (henc : encryptFlow wc publicKeyHex fileName F aesKey iv = .ok out) :
    decryptFlow wc privateKeyBase64 (some (.str out.metadata.encryptedAESKeyHex))
      (some (.str out.metadata.ivHex)) out.blob = .ok F := by
  obtain ⟨c, pub1, w, b64, binary, hc, hpub1, hw, hb64, hbin, hout⟩ :=
    encryptFlow_inv wc publicKeyHex fileName F aesKey iv out henc
  rw [hpub] at hpub1
  cases hpub1
  have hpayload : IsBytes (F ++ wc.digestSHA256 F) := isBytes_append _ _ hF (hdigest F).1
  obtain ⟨hcb, hdec⟩ := haes _ _ hpayload hc
  obtain ⟨hwb, hunwrap⟩ := hrsa _ _ hkey hw
  have hb : b64 = base64Encode c := by
    have := arrayBufferToBase64_eq c hcb
    rw [hb64] at this
    exact Option.some.inj this
  subst hb
  have hbinary : binary = c := by
    have := atob_base64Encode c hcb
    rw [hbin] at this
    exact Option.some.inj this
  subst hbinary
  subst hout
  simp only [charCode_loop binary hcb]
  unfold decryptFlow
  simp only [bind, Except.bind, hpriv]
  unfold unwrapKey
  simp only [bind, Except.bind, pure, Except.pure, hexToArrayBufferOf_hex w hwb,
    hexToArrayBufferOf_hex iv hiv, rsaDecrypt, hunwrap, importAESRaw, hraw, newUint8Array]
  unfold decryptPayload
  simp only [bind, Except.bind, aesGcmDecrypt, hdec, newUint8Array]
  exact verifyPayload_append wc.digestSHA256 (fun x => (hdigest x).2) F

/-- The round trip of C1 run on the demo instance, with the file `hello` and
with the empty file. -/
theorem C1_envelope_round_trip_witness :
    (∃ out, encryptFlow demoCrypto (lit "AAAA") (lit "a.txt") (lit "hello") demoKey demoIv
        = .ok out ∧
      decryptFlow demoCrypto (lit " AAAA ") (some (.str out.metadata.encryptedAESKeyHex))
        (some (.str out.metadata.ivHex)) out.blob = .ok (lit "hello")) ∧
    (∃ out, encryptFlow demoCrypto (lit "AAAA") (lit "empty") [] demoKey demoIv = .ok out ∧
      out.blob.length = 32 ∧
      decryptFlow demoCrypto (lit " AAAA ") (some (.str out.metadata.encryptedAESKeyHex))
        (some (.str out.metadata.ivHex)) out.blob = .ok []) :=
  ⟨⟨_, rfl,
    C1_envelope_round_trip demoCrypto (lit "AAAA") (lit " AAAA ") (lit "a.txt") () () demoKey
      demoKey demoIv (lit "hello") _ (by decide) (by decide) demoCrypto_digest (by decide) rfl
      demoCrypto_aes rfl rfl demoCrypto_rsa rfl⟩,
   ⟨_, rfl, rfl,
    C1_envelope_round_trip demoCrypto (lit "AAAA") (lit " AAAA ") (lit "empty") () () demoKey
      demoKey demoIv [] _ (by decide) (by decide) demoCrypto_digest (by decide) rfl
      demoCrypto_aes rfl rfl demoCrypto_rsa rfl⟩⟩

/-- C2. Hex round trip: for every byte sequence `B`, the empty one and those
with zero bytes included, `hexToArrayBuffer(arrayBufferToHex(B))` is `B`. -/
theorem C2_hex_round_trip (B : Bytes) (hB : IsBytes B) :
    hexToArrayBuffer (arrayBufferToHex (.arrayBuffer B)) = B :=
  hex_roundtrip B hB

/-- C2 on the bytes `00 ff 10 00`. -/
theorem C2_hex_round_trip_witness :
    IsBytes [0, 255, 16, 0] ∧
      hexToArrayBuffer (arrayBufferToHex (.arrayBuffer [0, 255, 16, 0])) = [0, 255, 16, 0] :=
  ⟨by decide, C2_hex_round_trip [0, 255, 16, 0] (by decide)⟩

/-- C3, as the code has it: `hexToArrayBuffer` never fails.  For every string it
returns one byte per complete pair of non-white-space characters, the byte of
pair `i` being `parseInt` of the pair in radix 16 stored into a `Uint8Array`
(`NaN` stored as 0). -/
theorem C3_hex_decode_total (hex : JSString) :
    hexToArrayBuffer hex =
      (List.range ((hex.filter (fun c => !isJsWhiteSpace c)).length / 2)).map
        (fun i => toUint8 (parseInt16
          (substr (hex.filter (fun c => !isJsWhiteSpace c)) (i * 2) 2))) := by
  rw [hexToArrayBuffer_eq]
  cases hex with
  | nil => rfl
  | cons c rest => rfl

/-- C3 fails as stated: `"abc"` decodes to the single byte `0xab`, its last
character dropped (`new Uint8Array(1.5)` has `ToIndex(1.5) = 1` element and the
store at index 1 is ignored), and `"zz"` decodes to the single byte 0 (`NaN`
stored into a `Uint8Array`); neither is rejected. -/
theorem C3_hex_decode_accepts_bad_input :
    hexToArrayBuffer (lit "abc") = [0xab] ∧ hexToArrayBuffer (lit "zz") = [0] := by
  decide

/-- C4. Base64 round trip: for every byte sequence `B`, `arrayBufferToBase64(B)`
is the padded standard-alphabet base64 of `B` and `base64ToArrayBuffer` of it
is `B`. -/
theorem C4_base64_round_trip (B : Bytes) (hB : IsBytes B) :
    arrayBufferToBase64 (.arrayBuffer B) = some (base64Encode B) ∧
      base64ToArrayBuffer (base64Encode B) = some B :=
  ⟨arrayBufferToBase64_eq B hB, base64ToArrayBuffer_eq _ _ (atob_base64Encode B hB) hB⟩

/-- C4 on the bytes `00 00 ff 68`. -/
theorem C4_base64_round_trip_witness :
    IsBytes [0, 0, 255, 104] ∧
      arrayBufferToBase64 (.arrayBuffer [0, 0, 255, 104]) = some (lit "AAD/aA==") ∧
      base64ToArrayBuffer (lit "AAD/aA==") = some [0, 0, 255, 104] :=
  ⟨by decide, C4_base64_round_trip [0, 0, 255, 104] (by decide)⟩

/-- C5. Check after decryption: for a payload `P` returned by AES-GCM
decryption, with a 32-byte digest, the flow fails with the too-small error when
`P` has fewer than 32 bytes, fails with the integrity error when the last 32
bytes differ from the digest of the bytes before them, and otherwise succeeds
with exactly the bytes before the last 32; so it succeeds if and only if `P`
has at least 32 bytes and the last 32 are the digest of the rest. -/
theorem C5_payload_check {PublicKey PrivateKey AesKey : Type}
    (wc : WebCrypto PublicKey PrivateKey AesKey)
    (aesKey : AesKey) (iv ciphertext P : Bytes)
    (hdigest : ∀ x, (wc.digestSHA256 x).length = 32)
    (hdec : wc.aesGcmDecrypt aesKey iv ciphertext = .ok P) :
    (P.length < 32 →
      decryptPayload wc aesKey iv ciphertext = .error "Decrypted payload too small") ∧
    (32 ≤ P.length → P.drop (P.length - 32) ≠ wc.digestSHA256 (P.take (P.length - 32)) →
      decryptPayload wc aesKey iv ciphertext =
        .error "Hash verification failed — file integrity compromised!") ∧
    (32 ≤ P.length → P.drop (P.length - 32) = wc.digestSHA256 (P.take (P.length - 32)) →
      decryptPayload wc aesKey iv ciphertext = .ok (P.take (P.length - 32))) ∧
    ((∃ released, decryptPayload wc aesKey iv ciphertext = .ok released) ↔
      (32 ≤ P.length ∧ P.drop (P.length - 32) = wc.digestSHA256 (P.take (P.length - 32)))) := by
  have hstep : decryptPayload wc aesKey iv ciphertext = verifyPayload wc.digestSHA256 P := by
    unfold decryptPayload
    simp only [bind, Except.bind, aesGcmDecrypt, hdec, newUint8Array]
  rw [hstep]
  refine ⟨fun h => verifyPayload_short _ _ h, ?_, ?_, ?_⟩
  · intro h hne
    rw [verifyPayload_long _ hdigest _ h, if_neg hne]
  · intro h heq
    rw [verifyPayload_long _ hdigest _ h, if_pos heq]
  · constructor
    · rintro ⟨released, hr⟩
      by_cases h : 32 ≤ P.length
      · refine ⟨h, ?_⟩
        rw [verifyPayload_long _ hdigest _ h] at hr
        by_contra hne
        rw [if_neg hne] at hr
        simp at hr
      · rw [verifyPayload_short _ _ (by omega)] at hr
        simp at hr
    · rintro ⟨h, heq⟩
      exact ⟨_, by rw [verifyPayload_long _ hdigest _ h, if_pos heq]⟩

/-- C5 on the demo instance: the payload `7 8 9` followed by its digest is
released as `7 8 9`; a two-byte payload and a payload with a wrong digest are
refused with the two errors. -/
theorem C5_payload_check_witness :
    decryptPayload demoCrypto demoKey demoIv ([7, 8, 9] ++ List.replicate 32 3).reverse
      = .ok [7, 8, 9] ∧
    decryptPayload demoCrypto demoKey demoIv [1, 2] = .error "Decrypted payload too small" ∧
    decryptPayload demoCrypto demoKey demoIv ([7, 8, 9] ++ List.replicate 32 4).reverse
      = .error "Hash verification failed — file integrity compromised!" :=
  ⟨(C5_payload_check demoCrypto demoKey demoIv ([7, 8, 9] ++ List.replicate 32 3).reverse
      ([7, 8, 9] ++ List.replicate 32 3) (fun x => (demoCrypto_digest x).2)
      (by simp [demoCrypto])).2.2.1 (by decide) (by decide),
    by decide, by decide⟩

/-- C9, what the code does: `digest` is an `ArrayBuffer`, so `digest.buffer` is
`undefined` and the `fileHashHex` put in the metadata is the empty string for
every file, not the 64 hex characters of the digest. -/
theorem C9_fileHashHex_is_empty {PublicKey PrivateKey AesKey : Type}
    (wc : WebCrypto PublicKey PrivateKey AesKey) (publicKeyHex fileName : JSString)
    (F : Bytes) (aesKey : AesKey) (iv : Bytes) (out : EncryptedUpload)
    (hdigest : IsBytes (wc.digestSHA256 F) ∧ (wc.digestSHA256 F).length = 32)
    (henc : encryptFlow wc publicKeyHex fileName F aesKey iv = .ok out) :
    out.metadata.fileHashHex = [] ∧
      (arrayBufferToHex (.arrayBuffer (sha256 wc F))).length = 64 ∧
      out.metadata.fileHashHex ≠ arrayBufferToHex (.arrayBuffer (sha256 wc F)) := by
  obtain ⟨c, pub1, w, b64, binary, -, -, -, -, -, hout⟩ :=
    encryptFlow_inv wc publicKeyHex fileName F aesKey iv out henc
  have hlen : (arrayBufferToHex (.arrayBuffer (sha256 wc F))).length = 64 := by
    rw [sha256, arrayBufferToHex_length _ hdigest.1, hdigest.2]
  have hempty : out.metadata.fileHashHex = [] := by
    subst hout
    rfl
  refine ⟨hempty, hlen, ?_⟩
  intro h
  rw [hempty] at h
  rw [← h] at hlen
  simp at hlen

/-- C9 on the demo instance with the file `hello`. -/
theorem C9_fileHashHex_is_empty_witness :
    ∃ out, encryptFlow demoCrypto (lit "AAAA") (lit "a.txt") (lit "hello") demoKey demoIv
        = .ok out ∧ out.metadata.fileHashHex = [] ∧
      (arrayBufferToHex (.arrayBuffer (sha256 demoCrypto (lit "hello")))).length = 64 ∧
      out.metadata.fileHashHex ≠
        arrayBufferToHex (.arrayBuffer (sha256 demoCrypto (lit "hello"))) :=
  ⟨_, rfl, C9_fileHashHex_is_empty demoCrypto (lit "AAAA") (lit "a.txt") (lit "hello") demoKey
    demoIv _ (demoCrypto_digest _) rfl⟩

/-- C6. Decrypt is all-or-nothing: after any run of `handleFetchAndDecrypt`,
either the download link is `null` and the status is `Error: ` followed by the
message of the failed step, or every step succeeded and the link carries
exactly the verified bytes.  So a failure of any step leaves no link, and a
link is present only when every step succeeded. -/
theorem C6_decrypt_all_or_nothing {PublicKey PrivateKey AesKey : Type}
    (env : DecryptEnv PublicKey PrivateKey AesKey) (s : DecryptForm) :
    ((handleFetchAndDecrypt env s).downloadUrl = none ∧
      ∃ message, (handleFetchAndDecrypt env s).status = "Error: " ++ message) ∨
    (∃ content filename, EveryStepSucceeds env s content filename ∧
      (handleFetchAndDecrypt env s).downloadUrl
        = some { content := content, filename := filename } ∧
      (handleFetchAndDecrypt env s).status = "Decryption done — click download link.") := by
  unfold handleFetchAndDecrypt tryFetchAndDecrypt
  simp only []
  cases hfetch : fetchFile env s.privateKeyBase64 s.fileId with
  | error e => exact Or.inl ⟨rfl, e, rfl⟩
  | ok fetched =>
    simp only []
    cases hkey : importRSAPrivateKeyBase64 env.wc (jsTrim s.privateKeyBase64) with
    | error e => exact Or.inl ⟨rfl, e, rfl⟩
    | ok privateKey =>
      simp only []
      cases hunwrap : unwrapKey env.wc privateKey fetched.encryptedAESKeyHex fetched.ivHex with
      | error e => exact Or.inl ⟨rfl, e, rfl⟩
      | ok pair =>
        obtain ⟨aesKey, iv⟩ := pair
        simp only []
        cases hdec : decryptPayload env.wc aesKey iv fetched.ciphertextBuffer with
        | error e => exact Or.inl ⟨rfl, e, rfl⟩
        | ok originalBytes =>
          right
          obtain ⟨resp, metaB64, text, metaJson, h1, h2, h3, h4, h5, h6, h7, h8, h9, h10, h11,
            h12, h13, h14⟩ := fetchFile_inv env _ _ _ hfetch
          obtain ⟨encBuf, raw, k1, k2, k3, k4⟩ := unwrapKey_inv env.wc _ _ _ _ _ hunwrap
          obtain ⟨P, p1, p2, p3, p4⟩ := decryptPayload_inv env.wc _ _ _ _ hdec
          exact ⟨originalBytes, _, ⟨resp, metaB64, text, metaJson, _, _, _, _, privateKey, encBuf,
            raw, aesKey, iv, P, h1, h2, h3, h4, h5, h6, h7, h8, h9, h10, h11, h12, h13, h14,
            hkey, k1, k2, k3, k4, p1, p2, p3, p4, rfl⟩, rfl, rfl⟩

/-! ## Paths -/

theorem applySegment_push (dir : Path) (seg : JSString) (h : ∃ c ∈ seg, c ≠ 46) :
    applySegment dir seg = dir ++ [seg] := by
  obtain ⟨c, hc, hne⟩ := h
  have h1 : seg ≠ [] := by
    intro h0; rw [h0] at hc; simp at hc
  have h2 : seg ≠ [46] := by
    intro h0; rw [h0] at hc; simp at hc; exact hne hc
  have h3 : seg ≠ [46, 46] := by
    intro h0; rw [h0] at hc; simp at hc; exact hne hc
  simp [applySegment, h1, h2, h3]

theorem joinWalk_plain (t : JSString) (ht : ∀ c ∈ t, c ≠ 47) (dir : Path) (seg : JSString) :
    joinWalk dir seg t = applySegment dir (seg ++ t) := by
  induction t generalizing seg with
  | nil => simp [joinWalk]
  | cons c rest ih =>
    have hc : c ≠ 47 := ht c (List.mem_cons_self _ _)
    have hrest : ∀ x ∈ rest, x ≠ 47 := fun x hx => ht x (List.mem_cons_of_mem _ hx)
    simp only [joinWalk, hc, if_false]
    rw [ih hrest, List.append_assoc]
    rfl

/-- After any text `a`, a suffix without `/` extends the component being read,
and that component does not depend on the directory the walk started in. -/
theorem joinWalk_append (a : JSString) : ∀ seg : JSString, ∃ s : JSString, ∀ dir : Path,
    ∃ d : Path, ∀ t : JSString, (∀ c ∈ t, c ≠ 47) →
      joinWalk dir seg (a ++ t) = applySegment d (s ++ t) := by
  induction a with
  | nil =>
    intro seg
    exact ⟨seg, fun dir => ⟨dir, fun t ht => by simpa using joinWalk_plain t ht dir seg⟩⟩
  | cons c rest ih =>
    intro seg
    by_cases hc : c = 47
    · obtain ⟨s, hs⟩ := ih []
      refine ⟨s, fun dir => ?_⟩
      obtain ⟨d, hd⟩ := hs (applySegment dir seg)
      exact ⟨d, fun t ht => by simpa [joinWalk, hc] using hd t ht⟩
    · obtain ⟨s, hs⟩ := ih (seg ++ [c])
      refine ⟨s, fun dir => ?_⟩
      obtain ⟨d, hd⟩ := hs dir
      exact ⟨d, fun t ht => by simpa [joinWalk, hc] using hd t ht⟩

/-- Two names with a common beginning and different endings that hold no `/`
and a character other than `.` resolve to different paths, from whatever
directories. -/
theorem joinWalk_ne (a t1 t2 : JSString) (dir1 dir2 : Path)
    (h1 : ∀ c ∈ t1, c ≠ 47) (h2 : ∀ c ∈ t2, c ≠ 47)
    (d1 : ∃ c ∈ t1, c ≠ 46) (d2 : ∃ c ∈ t2, c ≠ 46) (hne : t1 ≠ t2) :
    joinWalk dir1 [] (a ++ t1) ≠ joinWalk dir2 [] (a ++ t2) := by
  obtain ⟨s, hs⟩ := joinWalk_append a []
  obtain ⟨e1, he1⟩ := hs dir1
  obtain ⟨e2, he2⟩ := hs dir2
  rw [he1 t1 h1, he2 t2 h2]
  have p1 : ∃ c ∈ s ++ t1, c ≠ 46 := by
    obtain ⟨c, hc, hn⟩ := d1
    exact ⟨c, List.mem_append_right _ hc, hn⟩
  have p2 : ∃ c ∈ s ++ t2, c ≠ 46 := by
    obtain ⟨c, hc, hn⟩ := d2
    exact ⟨c, List.mem_append_right _ hc, hn⟩
  rw [applySegment_push _ _ p1, applySegment_push _ _ p2]
  intro h
  have h3 := (List.append_inj' h rfl).2
  simp only [List.cons.injEq, and_true] at h3
  exact hne (List.append_cancel_left h3)

/-- A name without `/` that is not empty, `.` or `..` is looked up directly in
the directory. -/
theorem pathJoin_plain (dir : Path) (name : JSString) (h : ∀ c ∈ name, c ≠ 47)
    (hd : ∃ c ∈ name, c ≠ 46) :
    (pathJoin dir name).segments = dir ++ [name] := by
  simp only [pathJoin]
  rw [joinWalk_plain name h dir [], List.nil_append, applySegment_push dir name hd]

theorem busboyBasename_noSlash (path : JSString) : ∀ c ∈ busboyBasename path, c ≠ 47 := by
  intro c hc
  unfold busboyBasename at hc
  simp only at hc
  split at hc
  · simp at hc
  · have hc2 := List.mem_reverse.mp hc
    have := List.mem_takeWhile_imp hc2
    simp only [Bool.and_eq_true, bne_iff_ne, ne_eq] at this
    exact this.1

theorem originalname_noSlash (name : PartName) : ∀ c ∈ name.originalname, c ≠ 47 := by
  cases name with
  | raw bytes =>
    intro c hc
    simp only [PartName.originalname] at hc
    split at hc
    · exact busboyBasename_noSlash _ c hc
    · simp at hc
  | extended n => exact busboyBasename_noSlash _

/-! ## File system calls -/

theorem writeFile_ok (env : ServerEnv) (fs fs2 : FileSystem) (p : JoinedPath)
    (content : FileContent) (h : fs.writeFile env p content = .ok fs2) :
    p.trailingSlash = false ∧ p.segments ≠ [] ∧
      fs2.node = fun q => if q = p.segments then some (.file content) else fs.node q := by
  unfold FileSystem.writeFile at h
  split at h
  · simp at h
  rename_i h1
  split at h
  · simp at h
  split at h
  · simp at h
  simp only [Except.ok.injEq] at h
  simp only [Bool.or_eq_true, not_or, Bool.not_eq_true] at h1
  refine ⟨h1.1, ?_, by rw [← h]⟩
  intro h0
  have := h1.2
  simp [FileSystem.isDirectory, h0] at this

theorem stat_written (env : ServerEnv) (fs fs2 : FileSystem) (p : JoinedPath)
    (content : FileContent) (h : fs.writeFile env p content = .ok fs2) :
    fs2.stat p = some (.file content) := by
  obtain ⟨h1, h2, h3⟩ := writeFile_ok env fs fs2 p content h
  have hne : p.segments.isEmpty = false := by
    cases hp : p.segments with
    | nil => exact absurd hp h2
    | cons _ _ => rfl
  simp [FileSystem.stat, hne, h3, h1]

theorem rename_ok (env : ServerEnv) (fs fs2 : FileSystem) (source target : JoinedPath)
    (h : fs.rename env source target = .ok fs2) :
    ∃ content, fs.stat source = some (.file content) ∧
      target.trailingSlash = false ∧ target.segments ≠ [] ∧
      fs2.node = fun q =>
        if q = target.segments then some (.file content)
        else if q = source.segments then none
        else fs.node q := by
  unfold FileSystem.rename at h
  split at h
  · simp at h
  · simp at h
  rename_i content hstat
  split at h
  · simp at h
  rename_i h1
  split at h
  · simp at h
  split at h
  · simp at h
  simp only [Except.ok.injEq] at h
  simp only [Bool.or_eq_true, not_or, Bool.not_eq_true] at h1
  refine ⟨content, hstat, h1.1, ?_, by rw [← h]⟩
  intro h0
  have := h1.2
  simp [FileSystem.isDirectory, h0] at this

/-! ## The storage handlers -/

theorem lookup_setField_self (fields : List (JSString × Json)) (key : JSString) (value : Json) :
    (setField fields key value).lookup key = some value := by
  induction fields with
  | nil => simp [setField, List.lookup]
  | cons p rest ih =>
    obtain ⟨a, b⟩ := p
    by_cases hak : a = key
    · subst hak
      simp [setField, List.lookup]
    · have hka : (key == a) = false := by
        simpa using fun h => hak h.symm
      simp only [setField, hak, if_false, List.lookup, hka]
      exact ih

theorem lookup_setField_other (fields : List (JSString × Json)) (key other : JSString)
    (value : Json) (hne : other ≠ key) :
    (setField fields key value).lookup other = fields.lookup other := by
  have hko : (other == key) = false := by simpa using hne
  induction fields with
  | nil => simp [setField, List.lookup, hko]
  | cons p rest ih =>
    obtain ⟨a, b⟩ := p
    by_cases hak : a = key
    · subst hak
      simp only [setField, if_true, List.lookup, hko]
    · simp only [setField, hak, if_false, List.lookup]
      cases other == a
      · exact ih
      · rfl

/-- The record the upload handler builds from an object. -/
theorem extendMetadata_obj (fields : List (JSString × Json)) (id name saved ts : JSString) :
    extendMetadata (.obj fields) id name saved ts =
      .ok (.obj (setField (setField (setField (setField fields (lit "id") (.str id))
        (lit "originalFilename") (.str name)) (lit "savedFilename") (.str saved))
        (lit "uploadTime") (.str ts))) := rfl

theorem validHeaderValue_disposition (env : ServerEnv) (name : JSString)
    (h : validHeaderValue name = true) :
    validHeaderValue (contentDisposition env (some (.str name))) = true := by
  unfold validHeaderValue at h ⊢
  simp only [contentDisposition, List.all_append, Bool.and_eq_true]
  exact ⟨⟨⟨by decide, by decide⟩, h⟩, by decide⟩

/-- What a successful `POST /upload` went through. -/
theorem postUpload_ok_inv (env : ServerEnv) (uuid timestamp now : JSString)
    (part : Option (PartName × Bytes)) (field : BodyField) (fs : FileSystem)
    (id : JSString) (record : Json)
    (h : (postUpload env uuid timestamp now part field fs).2 = .ok id record) :
    ∃ name blob fs1 fs2 fs3 metadata,
      part = some (name, blob) ∧
      fs.writeFile env (pathJoin (uploadsDir env) (now ++ lit "_" ++ name.originalname))
        (.bytes blob) = .ok fs1 ∧
      callerMetadata env field = .ok metadata ∧
      fs1.rename env (pathJoin (uploadsDir env) (now ++ lit "_" ++ name.originalname))
        (pathJoin (uploadsDir env) (uuid ++ lit "_" ++ name.originalname)) = .ok fs2 ∧
      extendMetadata metadata uuid name.originalname (uuid ++ lit "_" ++ name.originalname)
        timestamp = .ok record ∧
      fs2.writeFile env (pathJoin (metaDir env) (uuid ++ lit ".json")) (.json record)
        = .ok fs3 ∧
      (postUpload env uuid timestamp now part field fs).1 = fs3 ∧
      id = uuid := by
  unfold postUpload multerSingle at h ⊢
  cases part with
  | none => simp [uploadHandler] at h
  | some p =>
    obtain ⟨name, blob⟩ := p
    simp only at h ⊢
    by_cases hempty : name.originalname.isEmpty = true
    · simp [hempty, uploadHandler] at h
    · simp only [hempty, Bool.false_eq_true, if_false] at h ⊢
      cases hw : fs.writeFile env
          (pathJoin (uploadsDir env) (now ++ lit "_" ++ name.originalname)) (.bytes blob) with
      | error e => rw [hw] at h; simp at h
      | ok fs1 =>
        simp only [hw, uploadHandler] at h ⊢
        cases hm : callerMetadata env field with
        | error e =>
          simp only [hm] at h
          split at h <;> simp at h
        | ok metadata =>
          simp only [hm] at h ⊢
          cases hr : fs1.rename env
              (pathJoin (uploadsDir env) (now ++ lit "_" ++ name.originalname))
              (pathJoin (uploadsDir env) (uuid ++ lit "_" ++ name.originalname)) with
          | error e => rw [hr] at h; simp at h
          | ok fs2 =>
            simp only [hr] at h ⊢
            cases he : extendMetadata metadata uuid name.originalname
                (uuid ++ lit "_" ++ name.originalname) timestamp with
            | error e => rw [he] at h; simp at h
            | ok rec2 =>
              simp only [he] at h ⊢
              cases hw2 : fs2.writeFile env (pathJoin (metaDir env) (uuid ++ lit ".json"))
                  (.json rec2) with
              | error e => rw [hw2] at h; simp at h
              | ok fs3 =>
                simp only [hw2, UploadResponse.ok.injEq] at h ⊢
                obtain ⟨rfl, rfl⟩ := h
                exact ⟨name, blob, fs1, fs2, fs3, metadata, rfl, hw, rfl, hr, he, hw2, rfl, rfl⟩

/-- The record and the file system a successful upload of an object leaves. -/
theorem postUpload_object (env : ServerEnv) (uuid timestamp now : JSString) (name : PartName)
    (blob : Bytes) (field : BodyField) (fields : List (JSString × Json)) (fs : FileSystem)
    (id : JSString) (record : Json)
    (hpost : (postUpload env uuid timestamp now (some (name, blob)) field fs).2
      = .ok id record)
    (hmeta : callerMetadata env field = .ok (.obj fields)) :
    id = uuid ∧
    record = .obj (setField (setField (setField (setField fields (lit "id") (.str uuid))
      (lit "originalFilename") (.str name.originalname))
      (lit "savedFilename") (.str (uuid ++ lit "_" ++ name.originalname)))
      (lit "uploadTime") (.str timestamp)) ∧
    (postUpload env uuid timestamp now (some (name, blob)) field fs).1.stat
      (pathJoin (metaDir env) (uuid ++ lit ".json")) = some (.file (.json record)) ∧
    (postUpload env uuid timestamp now (some (name, blob)) field fs).1.stat
      (pathJoin (uploadsDir env) (uuid ++ lit "_" ++ name.originalname))
      = some (.file (.bytes blob)) := by
  obtain ⟨name1, blob1, fs1, fs2, fs3, metadata, hpart, hw, hm, hr, he, hw2, hfs, hid⟩ :=
    postUpload_ok_inv env uuid timestamp now _ field fs id record hpost
  simp only [Option.some.injEq, Prod.mk.injEq] at hpart
  obtain ⟨rfl, rfl⟩ := hpart
  rw [hmeta] at hm
  cases hm
  rw [extendMetadata_obj] at he
  simp only [Except.ok.injEq] at he
  refine ⟨hid, he.symm, ?_, ?_⟩
  · rw [hfs]
    exact stat_written env fs2 fs3 _ _ hw2
  · rw [hfs]
    obtain ⟨content, hsrc, hts, hne, hnode2⟩ := rename_ok env fs1 fs2 _ _ hr
    rw [stat_written env fs fs1 _ _ hw] at hsrc
    simp only [Option.some.injEq, Node.file.injEq] at hsrc
    subst hsrc
    obtain ⟨-, -, hnode3⟩ := writeFile_ok env fs2 fs3 _ _ hw2
    have hdiff : (pathJoin (uploadsDir env) (uuid ++ lit "_" ++ name.originalname)).segments ≠
        (pathJoin (metaDir env) (uuid ++ lit ".json")).segments := by
      simp only [pathJoin, List.append_assoc]
      apply joinWalk_ne
      · intro c hc
        rcases List.mem_append.mp hc with h | h
        · have : c = 95 := by simpa [lit] using h
          omega
        · exact originalname_noSlash name c h
      · decide
      · exact ⟨95, List.mem_append_left _ (by decide), by decide⟩
      · exact ⟨106, by decide, by decide⟩
      · intro h
        have := congrArg List.head? h
        simp [lit] at this
    have hne2 : (pathJoin (uploadsDir env) (uuid ++ lit "_" ++ name.originalname)).segments.isEmpty
        = false := by
      cases hp : (pathJoin (uploadsDir env) (uuid ++ lit "_" ++ name.originalname)).segments with
      | nil => exact absurd hp hne
      | cons _ _ => rfl
    simp only [FileSystem.stat, hne2, hnode3, hnode2, hdiff, if_false, if_true, hts,
      Bool.false_eq_true]

/-- C7, as the code has it.  Store then Retrieve: for every blob, original
filename and caller metadata for which `POST /upload` succeeds and returns an
id, where the metadata is absent, empty or a JSON object and the filename as
`multer` decodes it has only characters Node accepts in a header value, a
following `GET /file/id` succeeds with exactly the blob as body and the JSON
text of the record the upload returned, base64-encoded, in `X-Metadata`. -/
theorem C7_store_then_retrieve (env : ServerEnv) (uuid timestamp now : JSString)
    (name : PartName) (blob : Bytes) (field : BodyField) (fields : List (JSString × Json))
    (fs : FileSystem) (id : JSString) (record : Json)
    (hpost : (postUpload env uuid timestamp now (some (name, blob)) field fs).2
      = .ok id record)
    (hmeta : callerMetadata env field = .ok (.obj fields))
    (hname : validHeaderValue name.originalname = true) :
    getFile env (postUpload env uuid timestamp now (some (name, blob)) field fs).1 id
      = .ok (base64Encode (env.jsonStringifyUtf8 record))
          (contentDisposition env (some (.str name.originalname))) blob := by
  obtain ⟨hid, hrec, hstat1, hstat2⟩ :=
    postUpload_object env uuid timestamp now name blob field fields fs id record hpost hmeta
  subst hid
  have hne1 : lit "savedFilename" ≠ lit "uploadTime" := by decide
  have hne2 : lit "originalFilename" ≠ lit "uploadTime" := by decide
  have hne3 : lit "originalFilename" ≠ lit "savedFilename" := by decide
  have hsaved : record.getProp (lit "savedFilename")
      = .ok (some (.str (id ++ lit "_" ++ name.originalname))) := by
    rw [hrec]
    simp only [Json.getProp]
    rw [lookup_setField_other _ _ _ _ hne1, lookup_setField_self]
  have horig : record.getProp (lit "originalFilename")
      = .ok (some (.str name.originalname)) := by
    rw [hrec]
    simp only [Json.getProp]
    rw [lookup_setField_other _ _ _ _ hne2, lookup_setField_other _ _ _ _ hne3,
      lookup_setField_self]
  unfold getFile
  simp only [hstat1, FileContent.parse, hsaved, hstat2, horig,
    validHeaderValue_disposition env name.originalname hname, if_true, FileContent.read]

/-- C7 on the demo instance: an upload named `a.enc` with the metadata object
`{ ivHex: "0a" }` succeeds and is retrieved unchanged. -/
theorem C7_store_then_retrieve_witness :
    (postUpload demoServer (lit "u1") (lit "T") (lit "1700")
        (some (.raw (lit "a.enc"), [1, 2, 3]))
        (.value (.obj [(lit "ivHex", .str (lit "0a"))])) demoFs).2
      = .ok (lit "u1") (.obj [(lit "ivHex", .str (lit "0a")), (lit "id", .str (lit "u1")),
          (lit "originalFilename", .str (lit "a.enc")),
          (lit "savedFilename", .str (lit "u1_a.enc")), (lit "uploadTime", .str (lit "T"))]) ∧
    getFile demoServer
        (postUpload demoServer (lit "u1") (lit "T") (lit "1700")
          (some (.raw (lit "a.enc"), [1, 2, 3]))
          (.value (.obj [(lit "ivHex", .str (lit "0a"))])) demoFs).1 (lit "u1")
      = .ok (base64Encode (demoServer.jsonStringifyUtf8
            (.obj [(lit "ivHex", .str (lit "0a")), (lit "id", .str (lit "u1")),
              (lit "originalFilename", .str (lit "a.enc")),
              (lit "savedFilename", .str (lit "u1_a.enc")),
              (lit "uploadTime", .str (lit "T"))])))
          (contentDisposition demoServer (some (.str (lit "a.enc")))) [1, 2, 3] :=
  ⟨rfl,
    C7_store_then_retrieve demoServer (lit "u1") (lit "T") (lit "1700") (.raw (lit "a.enc"))
      [1, 2, 3] (.value (.obj [(lit "ivHex", .str (lit "0a"))]))
      [(lit "ivHex", .str (lit "0a"))] demoFs (lit "u1") _ rfl rfl (by decide)⟩

/-- C7 fails as stated.  With the metadata text `[]` the upload succeeds and
returns the id, but the record has no `savedFilename` and the following
retrieval ends in status 500; the same happens for an upload without metadata
whose filename, sent as `filename*=`, has a character that is not allowed in a
header value. -/
theorem C7_retrieve_fails_after_store :
    (postUpload demoServer (lit "u1") (lit "T") (lit "1700")
        (some (.raw (lit "a.enc"), [1, 2, 3])) (.text (lit "[]")) demoFs).2
      = .ok (lit "u1") (.arr []) ∧
    getFile demoServer
        (postUpload demoServer (lit "u1") (lit "T") (lit "1700")
          (some (.raw (lit "a.enc"), [1, 2, 3])) (.text (lit "[]")) demoFs).1 (lit "u1")
      = .serverError ∧
    (∃ record, (postUpload demoServer (lit "u1") (lit "T") (lit "1700")
        (some (.extended [0x6587, 0x4EF6], [1, 2, 3])) .absent demoFs).2
          = .ok (lit "u1") (.obj record)) ∧
    getFile demoServer
        (postUpload demoServer (lit "u1") (lit "T") (lit "1700")
          (some (.extended [0x6587, 0x4EF6], [1, 2, 3])) .absent demoFs).1 (lit "u1")
        = .serverError :=
  ⟨rfl, rfl, ⟨_, rfl⟩, rfl⟩

/-- C8, as the code has it.  Retrieve of a missing item: when nothing exists at
`path.join(metaDir, id + '.json')`, which is so for an id without `/` when the
metadata directory has no entry of that name, `GET /file/id` answers 404
`Metadata not found`; when the file there holds a record whose `savedFilename`
is a string and nothing exists at `path.join(uploadsDir, savedFilename)`, it
answers 404 `File missing`. -/
theorem C8_retrieve_missing (env : ServerEnv) (fs : FileSystem) (id : JSString)
    (h : fs.stat (pathJoin (metaDir env) (id ++ lit ".json")) = none ∨
      ((∀ c ∈ id, c ≠ 47) ∧ fs.node (metaDir env ++ [id ++ lit ".json"]) = none) ∨
      ∃ text doc savedFilename,
        fs.stat (pathJoin (metaDir env) (id ++ lit ".json")) = some (.file text) ∧
        text.parse env = .ok doc ∧
        doc.getProp (lit "savedFilename") = .ok (some (.str savedFilename)) ∧
        fs.stat (pathJoin (uploadsDir env) savedFilename) = none) :
    getFile env fs id = .notFound "Metadata not found" ∨
      getFile env fs id = .notFound "File missing" := by
  rcases h with h | ⟨hid, hnode⟩ | ⟨text, doc, savedFilename, hstat, hparse, hprop, hfile⟩
  · left
    unfold getFile
    simp only [h]
  · left
    have hseg : (pathJoin (metaDir env) (id ++ lit ".json")).segments
        = metaDir env ++ [id ++ lit ".json"] := by
      apply pathJoin_plain
      · intro c hc
        rcases List.mem_append.mp hc with h | h
        · exact hid c h
        · have hj : ∀ x ∈ lit ".json", x ≠ 47 := by decide
          exact hj c h
      · exact ⟨106, List.mem_append_right _ (by decide), by decide⟩
    have hstat : fs.stat (pathJoin (metaDir env) (id ++ lit ".json")) = none := by
      simp [FileSystem.stat, hseg, hnode]
    unfold getFile
    simp only [hstat]
  · right
    unfold getFile
    simp only [hstat, hparse, hprop, hfile]

/-- C8 on the file system after start-up: an id that was never issued, and a
record whose blob file is gone. -/
theorem C8_retrieve_missing_witness :
    getFile demoServer demoFs (lit "never-issued") = .notFound "Metadata not found" ∧
    getFile demoServer
      ((postUpload demoServer (lit "u1") (lit "T") (lit "1700")
        (some (.raw (lit "a.enc"), [1, 2, 3])) .absent demoFs).1.removed
          [lit "srv", lit "uploads", lit "u1_a.enc"]) (lit "u1")
      = .notFound "File missing" :=
  ⟨(C8_retrieve_missing demoServer demoFs (lit "never-issued")
      (Or.inr (Or.inl ⟨by decide, rfl⟩))).resolve_right (fun h => by
        have h2 : getFile demoServer demoFs (lit "never-issued")
            = .notFound "Metadata not found" := rfl
        rw [h2] at h
        simp at h),
    (C8_retrieve_missing demoServer
      ((postUpload demoServer (lit "u1") (lit "T") (lit "1700")
        (some (.raw (lit "a.enc"), [1, 2, 3])) .absent demoFs).1.removed
          [lit "srv", lit "uploads", lit "u1_a.enc"]) (lit "u1")
      (Or.inr (Or.inr ⟨_, _, lit "u1_a.enc", rfl, rfl, rfl, rfl⟩))).resolve_left (fun h => by
        have h2 : getFile demoServer
            ((postUpload demoServer (lit "u1") (lit "T") (lit "1700")
              (some (.raw (lit "a.enc"), [1, 2, 3])) .absent demoFs).1.removed
                [lit "srv", lit "uploads", lit "u1_a.enc"]) (lit "u1")
            = .notFound "File missing" := rfl
        rw [h2] at h
        simp at h)⟩

/-- C8 fails as stated, twice.  The record `[]` that an upload with the metadata
text `[]` writes has no `savedFilename`: with its blob file removed, the record
is there, the blob is absent, and the retrieval ends in status 500, not 404.
And the id `../uploads/u1_x` was never issued and has no entry in the metadata
directory, yet it resolves to the uploaded blob `u1_x.json`, which is read as
the record, and the retrieval answers 200. -/
theorem C8_missing_item_not_404 :
    (postUpload demoServer (lit "u1") (lit "T") (lit "1700")
        (some (.raw (lit "a.enc"), [1, 2, 3])) (.text (lit "[]")) demoFs).2
      = .ok (lit "u1") (.arr []) ∧
    ((postUpload demoServer (lit "u1") (lit "T") (lit "1700")
        (some (.raw (lit "a.enc"), [1, 2, 3])) (.text (lit "[]")) demoFs).1.removed
          [lit "srv", lit "uploads", lit "u1_a.enc"]).node
        [lit "srv", lit "uploads", lit "u1_a.enc"] = none ∧
    getFile demoServer
      ((postUpload demoServer (lit "u1") (lit "T") (lit "1700")
        (some (.raw (lit "a.enc"), [1, 2, 3])) (.text (lit "[]")) demoFs).1.removed
          [lit "srv", lit "uploads", lit "u1_a.enc"]) (lit "u1")
      = .serverError ∧
    (∃ record, (postUpload demoServer (lit "u1") (lit "T") (lit "1700")
        (some (.raw (lit "x.json"), demoRecordText)) .absent demoFs).2
      = .ok (lit "u1") record) ∧
    lit "../uploads/u1_x" ≠ lit "u1" ∧
    (postUpload demoServer (lit "u1") (lit "T") (lit "1700")
        (some (.raw (lit "x.json"), demoRecordText)) .absent demoFs).1.node
        [lit "srv", lit "metadata", lit "../uploads/u1_x.json"] = none ∧
    getFile demoServer
      (postUpload demoServer (lit "u1") (lit "T") (lit "1700")
        (some (.raw (lit "x.json"), demoRecordText)) .absent demoFs).1 (lit "../uploads/u1_x")
      = .ok (base64Encode (lit "json"))
          (lit "attachment; filename=" ++ [34] ++ lit "undefined" ++ [34]) demoRecordText :=
  ⟨rfl, rfl, rfl, ⟨_, rfl⟩, by decide, rfl, rfl⟩

/-- C10, as the code has it.  Metadata merge in Store: for every successful
`POST /upload` whose caller metadata `M` is absent, empty or a JSON object, the
record returned, which is also the one written under the returned id, has `id`
equal to the returned id, `originalFilename` the name of the uploaded file as
`multer` decodes it, `savedFilename` the id followed by `_` and that name,
`uploadTime` the timestamp, whatever `M` gave for these four keys, and has every
other key exactly as in `M`. -/
theorem C10_metadata_merge (env : ServerEnv) (uuid timestamp now : JSString)
    (name : PartName) (blob : Bytes) (field : BodyField) (fields : List (JSString × Json))
    (fs : FileSystem) (id : JSString) (returned : Json)
    (hpost : (postUpload env uuid timestamp now (some (name, blob)) field fs).2
      = .ok id returned)
    (hmeta : callerMetadata env field = .ok (.obj fields)) :
    id = uuid ∧
    ∃ record,
      returned = .obj record ∧
      (postUpload env uuid timestamp now (some (name, blob)) field fs).1.stat
        (pathJoin (metaDir env) (id ++ lit ".json")) = some (.file (.json (.obj record))) ∧
      record.lookup (lit "id") = some (.str id) ∧
      record.lookup (lit "originalFilename") = some (.str name.originalname) ∧
      record.lookup (lit "savedFilename")
        = some (.str (id ++ lit "_" ++ name.originalname)) ∧
      record.lookup (lit "uploadTime") = some (.str timestamp) ∧
      ∀ key, key ≠ lit "id" → key ≠ lit "originalFilename" → key ≠ lit "savedFilename" →
        key ≠ lit "uploadTime" → record.lookup key = fields.lookup key := by
  obtain ⟨hid, hrec, hstat1, -⟩ :=
    postUpload_object env uuid timestamp now name blob field fields fs id returned hpost hmeta
  subst hid
  refine ⟨rfl, _, hrec, ?_, ?_, ?_, ?_, ?_, ?_⟩
  · rw [hstat1, hrec]
  · rw [lookup_setField_other _ _ _ _ (by decide), lookup_setField_other _ _ _ _ (by decide),
      lookup_setField_other _ _ _ _ (by decide), lookup_setField_self]
  · rw [lookup_setField_other _ _ _ _ (by decide), lookup_setField_other _ _ _ _ (by decide),
      lookup_setField_self]
  · rw [lookup_setField_other _ _ _ _ (by decide), lookup_setField_self]
  · rw [lookup_setField_self]
  · intro key k1 k2 k3 k4
    rw [lookup_setField_other _ _ _ _ k4, lookup_setField_other _ _ _ _ k3,
      lookup_setField_other _ _ _ _ k2, lookup_setField_other _ _ _ _ k1]

/-- C10 on the demo instance: the upload succeeds, the caller's `ivHex` is kept
and the caller's `id` is replaced. -/
theorem C10_metadata_merge_witness :
    (postUpload demoServer (lit "u1") (lit "T") (lit "1700")
      (some (.raw (lit "a.enc"), [1, 2, 3]))
      (.value (.obj [(lit "ivHex", .str (lit "0a")), (lit "id", .str (lit "mine"))]))
      demoFs).2
      = .ok (lit "u1") (.obj [(lit "ivHex", .str (lit "0a")), (lit "id", .str (lit "u1")),
          (lit "originalFilename", .str (lit "a.enc")),
          (lit "savedFilename", .str (lit "u1_a.enc")), (lit "uploadTime", .str (lit "T"))]) ∧
    ∃ record,
      Json.obj [(lit "ivHex", .str (lit "0a")), (lit "id", .str (lit "u1")),
          (lit "originalFilename", .str (lit "a.enc")),
          (lit "savedFilename", .str (lit "u1_a.enc")), (lit "uploadTime", .str (lit "T"))]
        = .obj record ∧
      record.lookup (lit "id") = some (.str (lit "u1")) ∧
      record.lookup (lit "ivHex") = some (.str (lit "0a")) := by
  refine ⟨rfl, ?_⟩
  obtain ⟨-, record, h1, -, h3, -, -, -, h7⟩ :=
    C10_metadata_merge demoServer (lit "u1") (lit "T") (lit "1700") (.raw (lit "a.enc"))
      [1, 2, 3]
      (.value (.obj [(lit "ivHex", .str (lit "0a")), (lit "id", .str (lit "mine"))]))
      [(lit "ivHex", .str (lit "0a")), (lit "id", .str (lit "mine"))] demoFs (lit "u1") _
      rfl rfl
  refine ⟨record, h1, h3, ?_⟩
  rw [h7 (lit "ivHex") (by decide) (by decide) (by decide) (by decide)]
  rfl

/-- C10 fails as stated.  With the metadata text `[]` the upload succeeds, and
the record returned and written is the empty array, which has no `id` nor any
other of the four server fields. -/
theorem C10_record_without_server_fields :
    (postUpload demoServer (lit "u1") (lit "T") (lit "1700")
        (some (.raw (lit "a.enc"), [1, 2, 3])) (.text (lit "[]")) demoFs).2
      = .ok (lit "u1") (.arr []) ∧
    (Json.arr []).getProp (lit "id") = .ok none ∧
    (Json.arr []).getProp (lit "originalFilename") = .ok none ∧
    (Json.arr []).getProp (lit "savedFilename") = .ok none ∧
    (Json.arr []).getProp (lit "uploadTime") = .ok none :=
  ⟨rfl, rfl, rfl, rfl, rfl⟩

end Vault
